import Mathlib

/-!
Verification development for the graph_sync repository: a shallow embedding
of the fetch → merge → upsert pipeline (src/fetcher.py, src/syncer.py,
src/loader.py, src/models.py) together with theorems settling the frozen
claims about it.

Python dictionaries are embedded as insertion-ordered association lists with
unique keys; dynamic Python values flowing through property maps are embedded
as the inductive type `Value`.  Machine-level concerns (network, the Neo4j
wire protocol) are abstracted: the store is a pair of association maps keyed
exactly as the Cypher `MERGE` statements key their patterns.
-/

namespace GraphSync

mutual

/-- Embedding of the dynamic (JSON-ish) Python values that flow through the
pipeline's property maps: strings, ints, floats, booleans, lists, dicts and
`None`.  Float payloads are opaque codes: no float arithmetic occurs in the
embedded code, floats only pass through `isinstance` checks. -/
inductive Value where
  | str (s : String)
  | int (n : Int)
  | float (code : Int)
  | bool (b : Bool)
  | list (xs : ValueList)
  | dict (kvs : ValuePairs)
  | none
deriving Repr, DecidableEq

/-- A Python list payload (spine of `Value.list`). -/
inductive ValueList where
  | nil
  | cons (v : Value) (rest : ValueList)
deriving Repr, DecidableEq

/-- A Python dict payload (spine of `Value.dict`), insertion-ordered. -/
inductive ValuePairs where
  | nil
  | cons (k : String) (v : Value) (rest : ValuePairs)
deriving Repr, DecidableEq

end

/-- Fold a `ValueList` into an ordinary Lean list. -/
def ValueList.toList : ValueList → List Value
  | .nil => []
  | .cons v rest => v :: rest.toList

/-- Build a `ValueList` from an ordinary Lean list. -/
def ValueList.ofList : List Value → ValueList
  | [] => .nil
  | v :: rest => .cons v (ValueList.ofList rest)

/-- Python truthiness of a value (`if node_id:` in fetcher.py). -/
def Value.truthy : Value → Bool
  | .str s => s ≠ ""
  | .int n => n ≠ 0
  | .float c => c ≠ 0
  | .bool b => b
  | .list .nil => false
  | .list (.cons _ _) => true
  | .dict .nil => false
  | .dict (.cons _ _ _) => true
  | .none => false

mutual

/-- Python `repr()` of a value (used for elements nested inside containers). -/
def Value.reprPy : Value → String
  | .str s => "'" ++ s ++ "'"
  | .int n => toString n
  | .float c => toString c
  | .bool b => if b then "True" else "False"
  | .list xs => "[" ++ Value.reprPyList xs ++ "]"
  | .dict kvs => "\x7b" ++ Value.reprPyPairs kvs ++ "\x7d"
  | .none => "None"

def Value.reprPyList : ValueList → String
  | .nil => ""
  | .cons v .nil => Value.reprPy v
  | .cons v rest => Value.reprPy v ++ ", " ++ Value.reprPyList rest

def Value.reprPyPairs : ValuePairs → String
  | .nil => ""
  | .cons k v .nil => "'" ++ k ++ "': " ++ Value.reprPy v
  | .cons k v rest => "'" ++ k ++ "': " ++ Value.reprPy v ++ ", " ++ Value.reprPyPairs rest

end

/-- Python `str()` of a value, as interpolated by f-strings such as
`f"{instance_name}_{node_data['id']}"`. -/
def Value.toStr : Value → String
  | .str s => s
  | v => v.reprPy

section Assoc

variable {κ : Type} {ν : Type} [DecidableEq κ]

/-- First-match lookup in an association list (the semantics of `d[k]` /
`d.get(k)` on a Python dict, whose keys are unique). -/
def alookup (k : κ) : List (κ × ν) → Option ν
  | [] => Option.none
  | kv :: rest => if kv.1 = k then some kv.2 else alookup k rest

/-- `d[k] = v` on a Python dict: replace the (unique) existing entry in
place, keeping its original position, or append when the key is absent. -/
def aupd : List (κ × ν) → κ → ν → List (κ × ν)
  | [], k, v => [(k, v)]
  | kv :: rest, k, v => if kv.1 = k then (k, v) :: rest else kv :: aupd rest k v

@[simp] theorem alookup_nil (k : κ) : alookup (ν := ν) k [] = Option.none := rfl

theorem alookup_cons (k : κ) (kv : κ × ν) (d : List (κ × ν)) :
    alookup k (kv :: d) = if kv.1 = k then some kv.2 else alookup k d := rfl

@[simp] theorem alookup_append (k : κ) (d₁ d₂ : List (κ × ν)) :
    alookup k (d₁ ++ d₂) =
      match alookup k d₁ with
      | some v => some v
      | Option.none => alookup k d₂ := by
  induction d₁ with
  | nil => simp
  | cons kv rest ih =>
    by_cases h : kv.1 = k <;> simp [alookup_cons, h, ih]

theorem alookup_aupd_self (d : List (κ × ν)) (k : κ) (v : ν) :
    alookup k (aupd d k v) = some v := by
  induction d with
  | nil => simp [aupd, alookup_cons]
  | cons kv rest ih =>
    by_cases h : kv.1 = k
    · simp [aupd, h, alookup_cons]
    · simp [aupd, h, alookup_cons, ih]

theorem alookup_aupd_ne (d : List (κ × ν)) (k k' : κ) (v : ν) (h : k' ≠ k) :
    alookup k' (aupd d k v) = alookup k' d := by
  induction d with
  | nil => simp [aupd, alookup_cons, Ne.symm h]
  | cons kv rest ih =>
    by_cases hk : kv.1 = k
    · subst hk
      simp [aupd, alookup_cons, Ne.symm h]
    · rw [aupd, if_neg hk]
      by_cases hk' : kv.1 = k'
      · simp [alookup_cons, hk']
      · simp [alookup_cons, hk', ih]

theorem keys_aupd (d : List (κ × ν)) (k : κ) (v : ν) :
    (aupd d k v).map Prod.fst =
      match alookup k d with
      | some _ => d.map Prod.fst
      | Option.none => d.map Prod.fst ++ [k] := by
  induction d with
  | nil => simp [aupd]
  | cons kv rest ih =>
    by_cases h : kv.1 = k
    · simp [aupd, h, alookup_cons]
    · rw [aupd, if_neg h, List.map_cons, List.map_cons, alookup_cons, if_neg h, ih]
      cases alookup k rest <;> simp

theorem length_aupd (d : List (κ × ν)) (k : κ) (v : ν) :
    (aupd d k v).length =
      match alookup k d with
      | some _ => d.length
      | Option.none => d.length + 1 := by
  have h := congrArg List.length (keys_aupd d k v)
  simpa using by
    cases hlk : alookup k d <;> rw [hlk] at h <;> simpa using h

theorem alookup_isSome_iff_mem_keys (d : List (κ × ν)) (k : κ) :
    (alookup k d).isSome = true ↔ k ∈ d.map Prod.fst := by
  induction d with
  | nil => simp
  | cons kv rest ih =>
    rw [alookup_cons, List.map_cons]
    by_cases h : kv.1 = k
    · subst h; simp
    · rw [if_neg h, List.mem_cons]
      constructor
      · intro hs; exact Or.inr (ih.mp hs)
      · rintro (hk | hm)
        · exact absurd hk.symm h
        · exact ih.mpr hm

theorem alookup_eq_none_iff_not_mem_keys (d : List (κ × ν)) (k : κ) :
    alookup k d = Option.none ↔ k ∉ d.map Prod.fst := by
  rw [← alookup_isSome_iff_mem_keys]
  cases alookup k d <;> simp

end Assoc

/-! ## Python dicts with String keys (property maps and flat records) -/

/-- A Python `Dict[str, Any]` as it appears in node/edge `properties` and in
the flat records the loader sends to the store. -/
abbrev Record := List (String × Value)

/-- `d[k]` on a record.  In Python a missing key raises `KeyError`; every
record the embedded code indexes this way carries the key, and the theorems
hypothesise presence where it matters, so a missing key defaults to
`Value.none` here. -/
def dget (r : Record) (k : String) : Value := (alookup k r).getD Value.none

/-- `d.get(k, default)` on a record. -/
def dgetD (r : Record) (k : String) (v : Value) : Value := (alookup k r).getD v

/-- `left = {**base, **extra}` / Cypher `SET m += rec`: fold the right-hand
entries into the left dict, later keys overriding earlier ones in place. -/
def dictMerge (base extra : Record) : Record :=
  extra.foldl (fun acc kv => aupd acc kv.1 kv.2) base

/-! ## models.py -/

/-- models.Instance: an Odoo instance configuration. -/
structure Instance where
  name : String
  url : String := ""
  username : Option String := Option.none
  password : Option String := Option.none
  api_key : Option String := Option.none
  db_name : Option String := Option.none
deriving Repr, DecidableEq

/-- Modelled from the spec: models.GraphData — the RawFragment carried in an
`InstanceResponse` (referenced by src/fetcher.py as `GraphData(nodes=…,
edges=…)` but its class is absent from the sources); a pair of raw node and
edge record lists, §3 RawFragment. -/
structure GraphData where
  nodes : List Record := []
  edges : List Record := []
deriving Repr, DecidableEq

/-- models.GraphNode: a canonical node of the in-memory graph. `instance` is
a Lean keyword, so the field is spelled `instanceName`. -/
structure GraphNode where
  id : String
  name : String
  instanceName : String
  properties : Record := []
deriving Repr, DecidableEq

/-- models.GraphEdge: a canonical edge of the in-memory graph. -/
structure GraphEdge where
  source : String
  target : String
  type : String := "DEPENDS_ON"
  properties : Record := []
deriving Repr, DecidableEq

/-- models.Graph: the merged in-memory dependency graph. -/
structure Graph where
  nodes : List GraphNode := []
  edges : List GraphEdge := []
deriving Repr, DecidableEq

/-- Modelled from the spec: models.InstanceResponse — the per-source
SourceResult (referenced by src/fetcher.py but its class is absent from the
sources).  Fields follow the fetcher's usage and §3 SourceResult: source
name, a status that defaults to success, and either a fragment or an error
message. -/
structure InstanceResponse where
  instanceName : String
  status : String := "success"
  data : Option GraphData := Option.none
  error : Option String := Option.none
deriving Repr, DecidableEq

/-! ## syncer.py — OdooNeo4jSyncService._convert_to_graph_model -/

/-- The canonical node id the convert step computes:
`node_id = f"{instance_name}_{node_data['id']}"` (unconditional). -/
def canonicalId (instance_name : String) (node_data : Record) : String :=
  instance_name ++ "_" ++ (dget node_data "id").toStr

/-- One `GraphNode` as built inside `_convert_to_graph_model`:
`name` is `node_data.get("label", "")`, `properties` the raw record. -/
def mkNode (instance_name : String) (node_data : Record) : GraphNode :=
  { id := canonicalId instance_name node_data
    name := (dgetD node_data "label" (Value.str "")).toStr
    instanceName := instance_name
    properties := node_data }

/-- One `GraphEdge` as built inside `_convert_to_graph_model`; `ty` is the
hard-coded `"DEPENDS_ON"` (forward loop) or `"REQUIRED_BY"` (reverse loop). -/
def mkEdge (instance_name ty : String) (edge_data : Record) : GraphEdge :=
  { source := instance_name ++ "_" ++ (dget edge_data "from").toStr
    target := instance_name ++ "_" ++ (dget edge_data "to").toStr
    type := ty
    properties := edge_data }

/-- The node loop of `_convert_to_graph_model`: append a node unless its
canonical id is already in `node_map` (first-seen wins).  The state is the
accumulated node list paired with the seen-id list. -/
def convertNodes (instance_name : String) (nds : List Record)
    (st : List GraphNode × List String) : List GraphNode × List String :=
  nds.foldl (fun acc nd =>
    let node_id := canonicalId instance_name nd
    if node_id ∈ acc.2 then acc
    else (acc.1 ++ [mkNode instance_name nd], acc.2 ++ [node_id])) st

/-- syncer.OdooNeo4jSyncService._convert_to_graph_model: forward nodes are
deduplicated by canonical id, forward edges all become `"DEPENDS_ON"` edges,
then (when a reverse fragment is given) reverse nodes continue the same
dedup and reverse edges all become `"REQUIRED_BY"` edges.  No edge
deduplication occurs. -/
def convertToGraphModel (instance_name : String) (graph_data : GraphData)
    (reverse_graph_data : Option GraphData) : Graph :=
  let fwd := convertNodes instance_name graph_data.nodes ([], [])
  let es₁ := graph_data.edges.map (mkEdge instance_name "DEPENDS_ON")
  match reverse_graph_data with
  | Option.none => { nodes := fwd.1, edges := es₁ }
  | some rg =>
    let rev := convertNodes instance_name rg.nodes fwd
    let es₂ := rg.edges.map (mkEdge instance_name "REQUIRED_BY")
    { nodes := rev.1, edges := es₁ ++ es₂ }

/-! ## fetcher.py — per-source combine, fetch_instance_data, fetch_all -/

/-- The string key under which fetch_instance_data deduplicates edges:
`edge_id = f"{edge.get('from')}-{edge.get('to')}"`. -/
def edgeKey (edge : Record) : String :=
  (dgetD edge "from" Value.none).toStr ++ "-" ++ (dgetD edge "to" Value.none).toStr

/-- One step of `all_nodes = {node.get("id"): node for node in
graph_data.nodes if "id" in node}` — a dict comprehension, so a later
record with an already-seen id overwrites the earlier one. -/
def fwdNodeStep (acc : List (Value × Record)) (node : Record) : List (Value × Record) :=
  if (alookup "id" node).isSome then aupd acc (dget node "id") node else acc

/-- Forward nodes keyed by raw id, as the comprehension leaves them. -/
def fetchAllNodes (graph_data : GraphData) : List (Value × Record) :=
  graph_data.nodes.foldl fwdNodeStep []

/-- One step of the forward-edge loop of fetch_instance_data:
`all_edges[edge_id] = edge` guarded only by the (always-true) truthiness of
the key string. -/
def fwdEdgeStep (acc : List (String × Record)) (edge : Record) : List (String × Record) :=
  if edgeKey edge ≠ "" then aupd acc (edgeKey edge) edge else acc

/-- Forward edges keyed by their `"from-to"` string. -/
def fetchAllEdges (graph_data : GraphData) : List (String × Record) :=
  graph_data.edges.foldl fwdEdgeStep []

/-- One step of the reverse-node loop: a reverse record is added only when
its id is truthy and unseen (`if node_id and node_id not in all_nodes`). -/
def revNodeStep (acc : List (Value × Record)) (node : Record) : List (Value × Record) :=
  if (dgetD node "id" Value.none).truthy ∧ (alookup (dgetD node "id" Value.none) acc).isNone
  then aupd acc (dgetD node "id" Value.none) node
  else acc

/-- Node dict after the reverse-node loop has run over the forward one. -/
def combineAllNodes (graph_data reverse_graph : GraphData) : List (Value × Record) :=
  reverse_graph.nodes.foldl revNodeStep (fetchAllNodes graph_data)

/-- One step of the reverse-edge loop: a reverse edge is added only when
its `"from-to"` key is unseen. -/
def revEdgeStep (acc : List (String × Record)) (edge : Record) : List (String × Record) :=
  if edgeKey edge ≠ "" ∧ (alookup (edgeKey edge) acc).isNone then
    aupd acc (edgeKey edge) edge
  else acc

/-- Edge dict after the reverse-edge loop has run over the forward one. -/
def combineAllEdges (graph_data reverse_graph : GraphData) : List (String × Record) :=
  reverse_graph.edges.foldl revEdgeStep (fetchAllEdges graph_data)

/-- The forward/reverse combine inside fetch_instance_data (the
`include_reverse` branch): the values of the node and edge dicts above, in
insertion order. -/
def combineGraphs (graph_data reverse_graph : GraphData) : GraphData :=
  { nodes := (combineAllNodes graph_data reverse_graph).map Prod.snd
    edges := (combineAllEdges graph_data reverse_graph).map Prod.snd }

/-- The calls fetch_instance_data can issue against a source. -/
inductive Call where
  | health
  | forward
  | reverse
deriving Repr, DecidableEq

/-- The behaviour of one source's remote endpoints during one fetch:
what the health check returns (a raising health check returns `false`, since
`OdooGraphFetcher.healthcheck` catches every exception), and what each data
call returns or raises. -/
structure FetchEnv where
  health : Bool
  forward : Except String GraphData
  reverse : Except String GraphData

/-- fetcher.fetch_instance_data, also recording the remote calls issued: an
unhealthy source yields an error response before any data call; a raising
forward or reverse fetch is caught by the enclosing `except` and becomes an
error response; otherwise the (optionally combined) fragment is returned
with the default success status. -/
def fetchInstanceData (inst : Instance) (env : FetchEnv) (include_reverse : Bool) :
    InstanceResponse × List Call :=
  if env.health = false then
    ({ instanceName := inst.name, status := "error",
       error := some ("Instance " ++ inst.name ++ " is not healthy or not reachable") },
     [Call.health])
  else
    match env.forward with
    | Except.error e =>
      ({ instanceName := inst.name, status := "error", error := some e },
       [Call.health, Call.forward])
    | Except.ok forward_graph =>
      if include_reverse then
        match env.reverse with
        | Except.error e =>
          ({ instanceName := inst.name, status := "error", error := some e },
           [Call.health, Call.forward, Call.reverse])
        | Except.ok reverse_graph =>
          ({ instanceName := inst.name,
             data := some (combineGraphs forward_graph reverse_graph) },
           [Call.health, Call.forward, Call.reverse])
      else
        ({ instanceName := inst.name, data := some forward_graph },
         [Call.health, Call.forward])

/-- fetcher.fetch_all: one task per instance, gathered with
`return_exceptions=True`; an exception escaping a task (`run` returning
`Except.error`) is converted in place to an error response naming
`instances[i]`, and every other result is passed through unchanged. -/
def fetchAll (instances : List Instance)
    (run : Instance → Except String InstanceResponse) : List InstanceResponse :=
  if instances.isEmpty then []
  else
    (instances.map run).enum.map (fun p =>
      match p.2 with
      | Except.error msg =>
        { instanceName :=
            match instances.get? p.1 with
            | some inst => inst.name
            | Option.none => "unknown"
          status := "error"
          error := some ("Unhandled exception: " ++ msg) }
      | Except.ok r => r)

/-! ## loader.py — Neo4jLoader.ingest -/

/-- `isinstance(v, (str, int, float, bool))` in the loader's property
filter. -/
def isPrimitive : Value → Bool
  | .str _ => true
  | .int _ => true
  | .float _ => true
  | .bool _ => true
  | _ => false

/-- `isinstance(v, list) and all(isinstance(x, (str, int, float, bool)) for
x in v)`: a list every element of which is primitive (vacuously true for the
empty list, exactly as `all` on an empty generator). -/
def isPrimitiveList : Value → Bool
  | .list xs => xs.toList.all isPrimitive
  | _ => false

/-- The loader's `primitive_props` comprehension: keep exactly the entries
whose value is a primitive or a list of primitives. -/
def sanitizeProps (props : Record) : Record :=
  props.filter (fun kv => isPrimitive kv.2 || isPrimitiveList kv.2)

/-- The loader's id normalization: ids already starting with `'odoo_'` are
kept, every other id gets the `'odoo_'` prefix (`GraphNode.id` is declared
`str` in models.py, so the `isinstance(…, str)` guard is always true). -/
def normalizeId (s : String) : String :=
  if s.startsWith "odoo_" then s else "odoo_" ++ s

/-- The flat node record appended to `nodes_data`:
`{"id": node_id, "name": n.name, "instance": n.instance,
**primitive_props}` — the spread comes last, so sanitized properties
override the three canonical fields on key collision. -/
def buildNodeRecord (n : GraphNode) : Record :=
  dictMerge
    [("id", Value.str (normalizeId n.id)),
     ("name", Value.str n.name),
     ("instance", Value.str n.instanceName)]
    (sanitizeProps n.properties)

/-- The flat edge record appended to `edges_data`:
`{"source": source_id, "target": target_id, "type": e.type,
**primitive_props}`. -/
def buildEdgeRecord (e : GraphEdge) : Record :=
  dictMerge
    [("source", Value.str (normalizeId e.source)),
     ("target", Value.str (normalizeId e.target)),
     ("type", Value.str e.type)]
    (sanitizeProps e.properties)

/-- `nodes_data` for a graph. -/
def nodesData (g : Graph) : List Record := g.nodes.map buildNodeRecord

/-- `edges_data` for a graph. -/
def edgesData (g : Graph) : List Record := g.edges.map buildEdgeRecord

/-- `edges_by_type = defaultdict(list); edges_by_type[ed["type"]].append(ed)`:
group the edge records by their `"type"` value, groups ordered by first
occurrence of the key. -/
def edgesByType (rs : List Record) : List (Value × List Record) :=
  rs.foldl (fun acc r =>
    let k := dget r "type"
    match alookup k acc with
    | some grp => aupd acc k (grp ++ [r])
    | Option.none => acc ++ [(k, [r])]) []

/-- `rel_label_map` in Neo4jLoader.ingest, verbatim. -/
def rel_label_map : List (String × String) :=
  [("dependency", "DEPENDS_ON"),
   ("reverse_dependency", "REQUIRED_BY")]

/-- `rel_label_map.get(raw_type)` where `raw_type = ed["type"]` is a dynamic
value: only string keys can hit the table. -/
def relLabelFor : Value → Option String
  | .str s => alookup s rel_label_map
  | _ => Option.none

/-- The edge groups the loader skips with a warning (`if not label:
continue`).  A falsy non-string label cannot arise: the table's values are
the nonempty strings above. -/
def skippedEdgeGroups (g : Graph) : List (Value × List Record) :=
  (edgesByType (edgesData g)).filter (fun kg => (relLabelFor kg.1).isNone)

/-- The (label, group) batches the loader actually ingests. -/
def ingestedEdgeGroups (g : Graph) : List (String × List Record) :=
  (edgesByType (edgesData g)).filterMap (fun kg =>
    (relLabelFor kg.1).map (fun label => (label, kg.2)))

/-! ### The store

The store is embedded extensionally, keyed exactly as the Cypher `MERGE`
patterns key their match: nodes by the record's `id` value
(`MERGE (m:ModuleNode {id: node.id})`), relationships by
`(source, target, label)` (`MATCH` both endpoints by id, then
`MERGE (a)-[r:label]->(b)`). -/

/-- The graph database contents: `ModuleNode`s keyed by their `id` property
and relationships keyed by (source id, target id, label). -/
structure Store where
  nodes : List (Value × Record) := []
  rels : List ((Value × Value × String) × Record) := []
deriving Repr, DecidableEq

/-- One record of the bulk node upsert:
`MERGE (m:ModuleNode {id: node.id}) SET m += node,
m.last_updated = timestamp()` — find-or-create by the record's id, merge the
record over the stored properties, stamp `last_updated` with the transaction
time `t`. -/
def upsertNode (t : Int) (s : Store) (rec : Record) : Store :=
  let idv := dget rec "id"
  match alookup idv s.nodes with
  | some props =>
    { s with nodes := aupd s.nodes idv (aupd (dictMerge props rec) "last_updated" (Value.int t)) }
  | Option.none =>
    { s with nodes := s.nodes ++ [(idv, aupd (dictMerge [("id", idv)] rec) "last_updated" (Value.int t))] }

/-- One record of a per-label edge upsert:
`MATCH (a {id: edge.source}) MATCH (b {id: edge.target})
MERGE (a)-[r:label]->(b) SET r += edge, r.last_updated = timestamp()` —
when either endpoint id matches no stored node the `MATCH` produces no rows
and the record is a no-op; otherwise find-or-create the relationship keyed
by (source, target, label) and merge the record over its properties. -/
def upsertRel (t : Int) (label : String) (s : Store) (rec : Record) : Store :=
  let sv := dget rec "source"
  let tv := dget rec "target"
  if (alookup sv s.nodes).isSome && (alookup tv s.nodes).isSome then
    let key := (sv, tv, label)
    match alookup key s.rels with
    | some props =>
      { s with rels := aupd s.rels key (aupd (dictMerge props rec) "last_updated" (Value.int t)) }
    | Option.none =>
      { s with rels := s.rels ++ [(key, aupd (dictMerge [] rec) "last_updated" (Value.int t))] }
  else s

/-- Neo4jLoader.ingest as a store transformer at transaction time `t`: the
node transaction upserts every `nodes_data` record, then each mapped edge
group is upserted under its store label, unmapped groups being skipped. -/
def ingest (t : Int) (g : Graph) (s : Store) : Store :=
  let s₁ := (nodesData g).foldl (upsertNode t) s
  (edgesByType (edgesData g)).foldl (fun st kg =>
    match relLabelFor kg.1 with
    | Option.none => st
    | some label => kg.2.foldl (upsertRel t label) st) s₁

/-- A write transaction issued by Neo4jLoader.ingest. -/
inductive TxOp where
  | nodeTx (recs : List Record)
  | edgeTx (label : String) (recs : List Record)
deriving Repr, DecidableEq

/-- The sequence of write transactions one call to Neo4jLoader.ingest
issues, in program order: the single bulk node transaction, then one edge
transaction per mapped group (skipped groups issue nothing). -/
def ingestOps (g : Graph) : List TxOp :=
  [TxOp.nodeTx (nodesData g)] ++
    (edgesByType (edgesData g)).foldl (fun acc kg =>
      match relLabelFor kg.1 with
      | Option.none => acc
      | some label => acc ++ [TxOp.edgeTx label kg.2]) []

/-- Whether a transaction is the bulk node upsert. -/
def TxOp.isNodeTx : TxOp → Bool
  | .nodeTx _ => true
  | .edgeTx _ _ => false

/-- Whether a transaction is a per-label edge upsert. -/
def TxOp.isEdgeTx : TxOp → Bool
  | .nodeTx _ => false
  | .edgeTx _ _ => true

/-! ## Specification-side definitions used only in theorem statements -/

/-- Reference first-seen deduplication by a key function, starting from a
list of already-seen keys: the behaviour §4.3 ascribes to node merging. -/
def dedupFirst {α β : Type} (f : α → β) [DecidableEq β] : List α → List β → List α
  | [], _ => []
  | x :: xs, seen =>
    if f x ∈ seen then dedupFirst f xs seen
    else x :: dedupFirst f xs (seen ++ [f x])

/-- The value of the last entry carrying key `k` (what `{**a, **b}` and
`SET m += rec` give a repeated key). -/
def lastLookup (k : String) (r : Record) : Option Value :=
  ((r.filter (fun kv => decide (kv.1 = k))).getLast?).map Prod.snd

/-- The last record in `rs` that mentions key `k` wins; `Option.none` when
no record mentions it.  Describes what a sequence of `SET m += rec` writes
leaves at key `k`. -/
def wlast (k : String) : List Record → Option Value
  | [] => Option.none
  | rec :: rs =>
    match wlast k rs with
    | some v => some v
    | Option.none => lastLookup k rec

/-- Replaying upserts over one store entry: each record is merged over the
current properties and the timestamp refreshed (`SET m += rec,
m.last_updated = timestamp()`). -/
def entryFold (t : Int) (start : Record) (rs : List Record) : Record :=
  rs.foldl (fun props rec => aupd (dictMerge props rec) "last_updated" (Value.int t)) start

/-- The records of a node batch that target the store entry `idv`
(`MERGE` matches them by their `"id"` value). -/
def relevantRecs (idv : Value) (recs : List Record) : List Record :=
  recs.filter (fun rec => decide (dget rec "id" = idv))

/-- The properties a node `MERGE` starts from: the stored properties when
the id matches an existing node, else the freshly created `{id: idv}`. -/
def startProps (base : Option Record) (idv : Value) : Record :=
  match base with
  | some p => p
  | Option.none => [("id", idv)]

/-- The properties a relationship `MERGE` starts from: the stored
properties when the key matches, else the freshly created empty map. -/
def relStart (base : Option Record) : Record :=
  match base with
  | some p => p
  | Option.none => []

/-- The flattened sequence of (label, edge record) upserts the edge phase
performs, in order: skipped groups contribute nothing. -/
def edgePlan (g : Graph) : List (String × Record) :=
  (edgesByType (edgesData g)).foldl (fun acc kg =>
    match relLabelFor kg.1 with
    | Option.none => acc
    | some label => acc ++ kg.2.map (fun r => (label, r))) []

/-- Whether both endpoints of a planned edge resolve against the node map
`N` (the two `MATCH` clauses of the edge upsert). -/
def relCond (N : List (Value × Record)) (lr : String × Record) : Bool :=
  (alookup (dget lr.2 "source") N).isSome && (alookup (dget lr.2 "target") N).isSome

/-- The store key a planned edge upserts:
`(source id, target id, label)`. -/
def relKey (lr : String × Record) : Value × Value × String :=
  (dget lr.2 "source", dget lr.2 "target", lr.1)

/-- The planned edge records that actually write to the relationship keyed
`rk`, given the node map `N` the `MATCH` clauses see. -/
def relevantRels (N : List (Value × Record)) (rk : Value × Value × String)
    (plan : List (String × Record)) : List Record :=
  (plan.filter (fun lr => relCond N lr && decide (relKey lr = rk))).map Prod.snd

/-- Two records agree at every key except the `last_updated` timestamp. -/
def RecordEqExceptLU (p q : Record) : Prop :=
  ∀ k, k ≠ "last_updated" → alookup k p = alookup k q

/-- Lifted to optional records: both absent, or both present and agreeing
except at `last_updated`. -/
def OptRecEqExceptLU : Option Record → Option Record → Prop
  | some p, some q => RecordEqExceptLU p q
  | Option.none, Option.none => True
  | _, _ => False

/-- Two stores hold the same node ids and relationship keys (in the same
order, hence the same counts) and every id/key resolves to the same stored
record except for the `last_updated` timestamp. -/
def StoreEqExceptLU (s₁ s₂ : Store) : Prop :=
  s₁.nodes.map Prod.fst = s₂.nodes.map Prod.fst ∧
  s₁.rels.map Prod.fst = s₂.rels.map Prod.fst ∧
  (∀ idv : Value, OptRecEqExceptLU (alookup idv s₁.nodes) (alookup idv s₂.nodes)) ∧
  (∀ rk : Value × Value × String, OptRecEqExceptLU (alookup rk s₁.rels) (alookup rk s₂.rels))

/-- A concrete two-node graph whose single edge carries the raw kind
`"dependency"` (the kind the loader's table maps), used to evaluate the
loader at a concrete input. -/
def sampleDepGraph : Graph :=
  { nodes := [{ id := "a", name := "", instanceName := "t" },
              { id := "b", name := "", instanceName := "t" }],
    edges := [{ source := "a", target := "b", type := "dependency" }] }

/-- A concrete forward fragment with two raw nodes and one raw edge, as the
remote endpoints return them. -/
def sampleForward : GraphData :=
  { nodes := [[("id", Value.int 1)], [("id", Value.int 2)]],
    edges := [[("from", Value.int 1), ("to", Value.int 2)]] }

/-- A concrete reverse fragment with one raw edge. -/
def sampleReverse : GraphData :=
  { edges := [[("from", Value.int 2), ("to", Value.int 1)]] }

/-- The merged graph the pipeline's own convert step produces from the
concrete fragments above. -/
def convertedSampleGraph : Graph :=
  convertToGraphModel "odoo" sampleForward (some sampleReverse)

/-! # Theorems

General lemmas about the embedding first, then one theorem per claim
(witnesses and counterexamples alongside their claims). -/

theorem TxOp.not_node_and_edge (op : TxOp) :
    op.isNodeTx = true → op.isEdgeTx = true → False := by
  cases op <;> simp [TxOp.isNodeTx, TxOp.isEdgeTx]

theorem foldl_edgeOps_isEdgeTx (gps : List (Value × List Record)) (acc : List TxOp)
    (hacc : ∀ op ∈ acc, op.isEdgeTx = true) :
    ∀ op ∈ gps.foldl (fun a kg =>
      match relLabelFor kg.1 with
      | Option.none => a
      | some label => a ++ [TxOp.edgeTx label kg.2]) acc, op.isEdgeTx = true := by
  induction gps generalizing acc with
  | nil => simpa using hacc
  | cons kg rest ih =>
    intro op hop
    rw [List.foldl_cons] at hop
    refine ih _ ?_ op hop
    intro op' hop'
    cases hl : relLabelFor kg.1 with
    | none =>
      simp only [hl] at hop'
      exact hacc op' hop'
    | some label =>
      simp only [hl] at hop'
      rcases List.mem_append.mp hop' with h | h
      · exact hacc op' h
      · rw [List.mem_singleton.mp h]
        rfl

/-- Claim C10 (confirmed).  During every load, all node writes are committed
before any edge write begins: in the transaction sequence of
`Neo4jLoader.ingest` the bulk node transaction is the first operation, and
every operation that is an edge transaction comes strictly after every
operation that is a node transaction. -/
theorem C10_nodes_before_edges (g : Graph) (i j : Nat)
    (hi : i < (ingestOps g).length) (hj : j < (ingestOps g).length)
    (hni : ((ingestOps g).get ⟨i, hi⟩).isNodeTx = true)
    (hej : ((ingestOps g).get ⟨j, hj⟩).isEdgeTx = true) :
    (ingestOps g).get? 0 = some (TxOp.nodeTx (nodesData g)) ∧ i < j := by
  have hrest := foldl_edgeOps_isEdgeTx (edgesByType (edgesData g)) [] (by simp)
  refine ⟨rfl, ?_⟩
  cases i with
  | zero =>
    cases j with
    | zero => exact absurd hej (by simp [ingestOps, TxOp.isEdgeTx])
    | succ j' => exact Nat.succ_pos j'
  | succ i' =>
    exfalso
    have hmem : (ingestOps g).get ⟨i' + 1, hi⟩ ∈
        (edgesByType (edgesData g)).foldl (fun a kg =>
          match relLabelFor kg.1 with
          | Option.none => a
          | some label => a ++ [TxOp.edgeTx label kg.2]) [] := by
      have : (ingestOps g).get ⟨i' + 1, hi⟩ =
          ((edgesByType (edgesData g)).foldl (fun a kg =>
            match relLabelFor kg.1 with
            | Option.none => a
            | some label => a ++ [TxOp.edgeTx label kg.2]) []).get
            ⟨i', by simpa [ingestOps] using hi⟩ := rfl
      rw [this]
      exact List.get_mem _ _ _
    exact TxOp.not_node_and_edge _ hni (hrest _ hmem)

/-- Witness for C10 at a concrete graph: `sampleDepGraph` issues the node
transaction at index 0 and an edge transaction at index 1, and the theorem
places the former strictly first. -/
theorem C10_nodes_before_edges_witness :
    (ingestOps sampleDepGraph).get? 0 = some (TxOp.nodeTx (nodesData sampleDepGraph)) ∧
      0 < 1 :=
  C10_nodes_before_edges sampleDepGraph 0 1 (by decide) (by decide) (by decide) (by decide)

/-- Claim C8 (corrected, amended).  A source whose health check returns
false (or raises: `healthcheck` catches every exception and returns false)
yields an error result for that source carrying the message
`"Instance {name} is not healthy or not reachable"`, no data, and no
forward or reverse data call is issued; the fetch returns a value, it does
not raise. -/
theorem C8_unhealthy_source_isolated (inst : Instance)
    (fwd rev : Except String GraphData) (include_reverse : Bool) :
    (fetchInstanceData inst ⟨false, fwd, rev⟩ include_reverse).1.status = "error" ∧
    (fetchInstanceData inst ⟨false, fwd, rev⟩ include_reverse).1.error =
      some ("Instance " ++ inst.name ++ " is not healthy or not reachable") ∧
    (fetchInstanceData inst ⟨false, fwd, rev⟩ include_reverse).1.data = Option.none ∧
    Call.forward ∉ (fetchInstanceData inst ⟨false, fwd, rev⟩ include_reverse).2 ∧
    Call.reverse ∉ (fetchInstanceData inst ⟨false, fwd, rev⟩ include_reverse).2 := by
  refine ⟨rfl, rfl, rfl, ?_, ?_⟩ <;> simp [fetchInstanceData]

/-- Counterexample for C8 as stated: the message returned for an unhealthy
source named `odoo1` is `"Instance odoo1 is not healthy or not reachable"`,
which is not the claimed literal `"instance not healthy or not
reachable"`. -/
theorem C8_counterexample :
    (fetchInstanceData { name := "odoo1" }
        ⟨false, Except.ok {}, Except.ok {}⟩ true).1.error =
      some "Instance odoo1 is not healthy or not reachable" ∧
    ("Instance odoo1 is not healthy or not reachable" : String) ≠
      "instance not healthy or not reachable" :=
  ⟨rfl, by decide⟩

/-! ## Lemmas about record lookup, merging and filtering -/

theorem getLast?_isSome_of_cons {α : Type} (x : α) (xs : List α) :
    ((x :: xs).getLast?).isSome = true := by
  induction xs generalizing x with
  | nil => rfl
  | cons y ys ih =>
    rw [List.getLast?_cons_cons]
    exact ih y

theorem lastLookup_cons (k : String) (kv : String × Value) (r : Record) :
    lastLookup k (kv :: r) =
      if kv.1 = k then
        match lastLookup k r with
        | some v => some v
        | Option.none => some kv.2
      else lastLookup k r := by
  by_cases h : kv.1 = k
  · rw [if_pos h]
    unfold lastLookup
    rw [List.filter_cons_of_pos (by simpa using h)]
    cases hf : r.filter (fun kv => decide (kv.1 = k)) with
    | nil => simp
    | cons x xs =>
      obtain ⟨y, hy⟩ := Option.isSome_iff_exists.mp (getLast?_isSome_of_cons x xs)
      simp [List.getLast?_cons_cons, hy]
  · rw [if_neg h]
    unfold lastLookup
    rw [List.filter_cons_of_neg (by simpa using h)]

theorem alookup_dictMerge (base extra : Record) (k : String) :
    alookup k (dictMerge base extra) =
      match lastLookup k extra with
      | some v => some v
      | Option.none => alookup k base := by
  induction extra generalizing base with
  | nil => simp [dictMerge, lastLookup]
  | cons kv rest ih =>
    obtain ⟨k₁, v₁⟩ := kv
    have hstep : dictMerge base ((k₁, v₁) :: rest) = dictMerge (aupd base k₁ v₁) rest := rfl
    rw [hstep, ih, lastLookup_cons]
    by_cases h : k₁ = k
    · rw [if_pos h]
      cases lastLookup k rest with
      | none =>
        subst h
        simp [alookup_aupd_self]
      | some v => rfl
    · rw [if_neg h, alookup_aupd_ne base k₁ k v₁ (fun hh => h hh.symm)]

theorem alookup_filter (p : String × Value → Bool) (d : Record) (k : String) (v : Value)
    (hl : alookup k d = some v) (hp : p (k, v) = true) :
    alookup k (d.filter p) = some v := by
  induction d with
  | nil => simp at hl
  | cons kv rest ih =>
    obtain ⟨k₁, v₁⟩ := kv
    by_cases h : k₁ = k
    · subst h
      rw [alookup_cons, if_pos rfl] at hl
      obtain rfl : v₁ = v := by simpa using hl
      rw [List.filter_cons_of_pos hp, alookup_cons, if_pos rfl]
    · rw [alookup_cons, if_neg h] at hl
      cases hpk : p (k₁, v₁) with
      | true =>
        rw [List.filter_cons_of_pos hpk, alookup_cons, if_neg h]
        exact ih hl
      | false =>
        rw [List.filter_cons_of_neg (by simp [hpk])]
        exact ih hl

theorem lastLookup_eq_none_of_not_mem (d : Record) (k : String)
    (h : k ∉ d.map Prod.fst) : lastLookup k d = Option.none := by
  unfold lastLookup
  have : d.filter (fun kv => decide (kv.1 = k)) = [] := by
    rw [List.filter_eq_nil_iff]
    intro kv hkv
    simp only [decide_eq_true_eq]
    intro hk
    exact h (hk ▸ List.mem_map_of_mem Prod.fst hkv)
  rw [this]
  rfl

theorem lastLookup_eq_alookup_of_nodup (d : Record) (k : String)
    (h : (d.map Prod.fst).Nodup) : lastLookup k d = alookup k d := by
  induction d with
  | nil => rfl
  | cons kv rest ih =>
    obtain ⟨k₁, v₁⟩ := kv
    rw [lastLookup_cons, alookup_cons]
    simp only [List.map_cons, List.nodup_cons] at h
    obtain ⟨hk₁, hrest⟩ := h
    by_cases hh : k₁ = k
    · subst hh
      rw [if_pos rfl, if_pos rfl, lastLookup_eq_none_of_not_mem rest k₁ hk₁]
    · rw [if_neg hh, if_neg hh]
      exact ih hrest

theorem sanitizeProps_keys_nodup (props : Record)
    (h : (props.map Prod.fst).Nodup) :
    ((sanitizeProps props).map Prod.fst).Nodup :=
  h.sublist (List.Sublist.map Prod.fst (List.filter_sublist props))

/-- Claim C3 (confirmed).  The flat record the loader builds spreads the
sanitized properties after the canonical fields, so a primitive-valued
property named `"id"` (likewise `"name"` or `"instance"`) replaces the
canonical value in the record used as the upsert key: the record's lookup at
that key yields the raw property value, not the canonical one computed from
the node. -/
theorem C3_properties_override_canonical_fields (n : GraphNode) (k : String) (v : Value)
    (_hk : k = "id" ∨ k = "name" ∨ k = "instance")
    (hnd : (n.properties.map Prod.fst).Nodup)
    (hv : alookup k n.properties = some v)
    (hkeep : (isPrimitive v || isPrimitiveList v) = true) :
    alookup k (buildNodeRecord n) = some v := by
  have hsan : alookup k (sanitizeProps n.properties) = some v :=
    alookup_filter _ _ _ _ hv hkeep
  rw [buildNodeRecord, alookup_dictMerge,
    lastLookup_eq_alookup_of_nodup _ _ (sanitizeProps_keys_nodup _ hnd), hsan]

/-- Witness for C3: a node whose canonical id is `"x"` but whose raw
properties carry `"id" ↦ 7` produces a flat record whose `"id"` is the raw
`7`, not `"odoo_x"`. -/
theorem C3_properties_override_witness :
    alookup "id" (buildNodeRecord
      { id := "x", name := "N", instanceName := "odoo",
        properties := [("id", Value.int 7)] }) = some (Value.int 7) :=
  C3_properties_override_canonical_fields
    { id := "x", name := "N", instanceName := "odoo",
      properties := [("id", Value.int 7)] }
    "id" (Value.int 7) (Or.inl rfl) (by decide) rfl (by decide)

/-! ## Convert-step lemmas -/

theorem mem_convertNodes (i : String) (nds : List Record)
    (st : List GraphNode × List String) (n : GraphNode)
    (hn : n ∈ (convertNodes i nds st).1) :
    n ∈ st.1 ∨ ∃ nd ∈ nds, n = mkNode i nd := by
  induction nds generalizing st with
  | nil => exact Or.inl hn
  | cons nd rest ih =>
    have hstep : convertNodes i (nd :: rest) st =
        convertNodes i rest
          (if canonicalId i nd ∈ st.2 then st
           else (st.1 ++ [mkNode i nd], st.2 ++ [canonicalId i nd])) := rfl
    rw [hstep] at hn
    rcases ih _ hn with h | h
    · by_cases hc : canonicalId i nd ∈ st.2
      · rw [if_pos hc] at h
        exact Or.inl h
      · rw [if_neg hc] at h
        rcases List.mem_append.mp h with h₁ | h₁
        · exact Or.inl h₁
        · exact Or.inr ⟨nd, List.mem_cons_self _ _, List.mem_singleton.mp h₁⟩
    · obtain ⟨nd', hnd', heq⟩ := h
      exact Or.inr ⟨nd', List.mem_cons_of_mem _ hnd', heq⟩

/-- Claim C2, amended (corrected).  The merge step always produces the
canonical id `"{sourceName}_{rawId}"`, with no exception for an already
prefixed `rawId`; the guard against double prefixing sits in the loader
instead, which leaves ids already starting with the literal `"odoo_"`
unchanged and prefixes `"odoo_"` to every other id. -/
theorem C2_merge_always_prefixes (instance_name : String) (gd : GraphData)
    (rgd : Option GraphData) (n : GraphNode)
    (hn : n ∈ (convertToGraphModel instance_name gd rgd).nodes) :
    (∃ nd, (nd ∈ gd.nodes ∨ ∃ rg, rgd = some rg ∧ nd ∈ rg.nodes) ∧
        n.id = instance_name ++ "_" ++ (dget nd "id").toStr) ∧
    (∀ s : String, s.startsWith "odoo_" = true → normalizeId s = s) ∧
    (∀ s : String, s.startsWith "odoo_" = false → normalizeId s = "odoo_" ++ s) := by
  refine ⟨?_, fun s hs => by rw [normalizeId, if_pos hs],
    fun s hs => by rw [normalizeId, if_neg (by simp [hs])]⟩
  cases rgd with
  | none =>
    rcases mem_convertNodes instance_name gd.nodes ([], []) n hn with h | h
    · simp at h
    · obtain ⟨nd, hnd, rfl⟩ := h
      exact ⟨nd, Or.inl hnd, rfl⟩
  | some rg =>
    rcases mem_convertNodes instance_name rg.nodes _ n hn with h | h
    · rcases mem_convertNodes instance_name gd.nodes ([], []) n h with h₂ | h₂
      · simp at h₂
      · obtain ⟨nd, hnd, rfl⟩ := h₂
        exact ⟨nd, Or.inl hnd, rfl⟩
    · obtain ⟨nd, hnd, rfl⟩ := h
      exact ⟨nd, Or.inr ⟨rg, rfl, hnd⟩, rfl⟩

/-- Counterexample for C2 as stated: a raw node id `"odoo_5"` fetched from
the source named `odoo` already carries the `"odoo_"` prefix, yet the merge
step still produces `"odoo_odoo_5"`, not the claimed unchanged
`"odoo_5"`. -/
theorem C2_counterexample :
    (convertToGraphModel "odoo"
        { nodes := [[("id", Value.str "odoo_5")]] } Option.none).nodes.map GraphNode.id =
      ["odoo_odoo_5"] ∧
    ("odoo_odoo_5" : String) ≠ "odoo_5" :=
  ⟨rfl, by decide⟩

/-- Witness for C2's amended theorem at a concrete input: the single node
converted from raw id `"odoo_5"` under source name `odoo` gets canonical id
`"odoo" ++ "_" ++ "odoo_5"`. -/
theorem C2_merge_always_prefixes_witness :
    (∃ nd, (nd ∈ ({ nodes := [[("id", Value.str "odoo_5")]] } : GraphData).nodes ∨
        ∃ rg, (Option.none : Option GraphData) = some rg ∧ nd ∈ rg.nodes) ∧
      (mkNode "odoo" [("id", Value.str "odoo_5")]).id =
        "odoo" ++ "_" ++ (dget nd "id").toStr) ∧
    (∀ s : String, s.startsWith "odoo_" = true → normalizeId s = s) ∧
    (∀ s : String, s.startsWith "odoo_" = false → normalizeId s = "odoo_" ++ s) :=
  C2_merge_always_prefixes "odoo" { nodes := [[("id", Value.str "odoo_5")]] }
    Option.none (mkNode "odoo" [("id", Value.str "odoo_5")])
    (List.mem_singleton.mpr rfl)

/-- Claim C6, amended (corrected).  Property sanitization is total and keeps
exactly the entries whose value is a primitive or a list all of whose
elements are primitives (of possibly different types); every other value is
absent from the record, and kept entries are preserved exactly, in order. -/
theorem C6_sanitization (props : Record) (k : String) (v : Value) :
    ((k, v) ∈ sanitizeProps props ↔
      (k, v) ∈ props ∧
        (isPrimitive v = true ∨
          ∃ xs, v = Value.list xs ∧ ∀ x ∈ xs.toList, isPrimitive x = true)) ∧
    List.Sublist (sanitizeProps props) props := by
  refine ⟨?_, List.filter_sublist props⟩
  rw [sanitizeProps, List.mem_filter]
  constructor
  · rintro ⟨hm, hp⟩
    refine ⟨hm, ?_⟩
    have hp' : isPrimitive v = true ∨ isPrimitiveList v = true := by simpa using hp
    rcases hp' with h | h
    · exact Or.inl h
    · cases v with
      | list xs =>
        refine Or.inr ⟨xs, rfl, fun x hx => ?_⟩
        have hall : xs.toList.all isPrimitive = true := by simpa [isPrimitiveList] using h
        exact List.all_eq_true.mp hall x hx
      | str s => simp [isPrimitiveList] at h
      | int m => simp [isPrimitiveList] at h
      | float c => simp [isPrimitiveList] at h
      | bool b => simp [isPrimitiveList] at h
      | dict kvs => simp [isPrimitiveList] at h
      | none => simp [isPrimitiveList] at h
  · rintro ⟨hm, h | h⟩
    · exact ⟨hm, by simp [h]⟩
    · obtain ⟨xs, rfl, hall⟩ := h
      refine ⟨hm, ?_⟩
      have hlist : isPrimitiveList (Value.list xs) = true := by
        rw [isPrimitiveList, List.all_eq_true]
        exact hall
      simp [hlist]

/-- Counterexample for C6 as stated: the list `[1, "a"]` mixes primitives of
different types, so by the claim it should be dropped; the code keeps any
list whose elements are all primitive, so the value survives sanitization
and reaches the flat record sent to the store. -/
theorem C6_counterexample :
    sanitizeProps
        [("xs", Value.list (ValueList.cons (Value.int 1)
            (ValueList.cons (Value.str "a") ValueList.nil)))] =
      [("xs", Value.list (ValueList.cons (Value.int 1)
            (ValueList.cons (Value.str "a") ValueList.nil)))] ∧
    alookup "xs" (buildNodeRecord
      { id := "m", name := "M", instanceName := "odoo",
        properties := [("xs", Value.list (ValueList.cons (Value.int 1)
            (ValueList.cons (Value.str "a") ValueList.nil)))] }) =
      some (Value.list (ValueList.cons (Value.int 1)
            (ValueList.cons (Value.str "a") ValueList.nil))) :=
  ⟨rfl, rfl⟩

/-- Claim C1 (code_bug).  The loader's fixed table does map the kinds
`"dependency"` and `"reverse_dependency"` to `DEPENDS_ON` and `REQUIRED_BY`
and skips unmapped kinds, but the pipeline's own convert step labels its
edges `"DEPENDS_ON"`/`"REQUIRED_BY"` — values that are not keys of the
table — so at the concrete merged graph produced by the convert step every
edge is skipped and zero relationships are ever ingested, while the nodes
land.  This contradicts the claim (and test_loader.py, which expects its
`DEPENDS_ON` edge to be stored). -/
theorem C1_convert_edges_never_ingested :
    relLabelFor (Value.str "dependency") = some "DEPENDS_ON" ∧
    relLabelFor (Value.str "reverse_dependency") = some "REQUIRED_BY" ∧
    relLabelFor (Value.str "mystery") = Option.none ∧
    convertedSampleGraph.edges.map GraphEdge.type = ["DEPENDS_ON", "REQUIRED_BY"] ∧
    ingestedEdgeGroups convertedSampleGraph = [] ∧
    (skippedEdgeGroups convertedSampleGraph).length = 2 ∧
    (ingest 1 convertedSampleGraph {}).rels = [] ∧
    (ingest 1 convertedSampleGraph {}).nodes.length = 2 ∧
    (ingest 1 sampleDepGraph {}).rels.map Prod.fst =
      [(Value.str "odoo_a", Value.str "odoo_b", "DEPENDS_ON")] :=
  ⟨rfl, rfl, rfl, rfl, rfl, rfl, rfl, rfl, rfl⟩

/-! ## Generic lemmas about guarded `aupd` folds -/

theorem mem_aupd {κ ρ : Type} [DecidableEq κ] (d : List (κ × ρ)) (k : κ) (v : ρ)
    (kv : κ × ρ) (h : kv ∈ aupd d k v) : kv ∈ d ∨ kv = (k, v) := by
  induction d with
  | nil => simpa [aupd] using h
  | cons kv₁ rest ih =>
    by_cases hk : kv₁.1 = k
    · rw [aupd, if_pos hk] at h
      rcases List.mem_cons.mp h with h₁ | h₁
      · exact Or.inr h₁
      · exact Or.inl (List.mem_cons_of_mem _ h₁)
    · rw [aupd, if_neg hk] at h
      rcases List.mem_cons.mp h with h₁ | h₁
      · exact Or.inl (h₁ ▸ List.mem_cons_self _ _)
      · rcases ih h₁ with h₂ | h₂
        · exact Or.inl (List.mem_cons_of_mem _ h₂)
        · exact Or.inr h₂

theorem aupd_keys_nodup {κ ρ : Type} [DecidableEq κ] (d : List (κ × ρ)) (k : κ) (v : ρ)
    (h : (d.map Prod.fst).Nodup) : ((aupd d k v).map Prod.fst).Nodup := by
  rw [keys_aupd]
  cases hlk : alookup k d with
  | some w => exact h
  | none =>
    have hk : k ∉ d.map Prod.fst := (alookup_eq_none_iff_not_mem_keys d k).mp hlk
    simpa [List.nodup_append] using
      ⟨h, fun x hx => hk (List.mem_map_of_mem Prod.fst hx)⟩

theorem foldl_step_keys_nodup {κ ρ α : Type} [DecidableEq κ]
    (step : List (κ × ρ) → α → List (κ × ρ))
    (hstep : ∀ acc x, step acc x = acc ∨ ∃ k v, step acc x = aupd acc k v)
    (xs : List α) (init : List (κ × ρ)) (hinit : (init.map Prod.fst).Nodup) :
    ((xs.foldl step init).map Prod.fst).Nodup := by
  induction xs generalizing init with
  | nil => exact hinit
  | cons x rest ih =>
    rw [List.foldl_cons]
    refine ih (step init x) ?_
    rcases hstep init x with h | ⟨k, v, h⟩
    · rw [h]; exact hinit
    · rw [h]; exact aupd_keys_nodup init k v hinit

theorem foldl_step_mem {κ ρ α : Type} [DecidableEq κ]
    (P : κ × ρ → Prop)
    (step : List (κ × ρ) → α → List (κ × ρ))
    (hstep : ∀ acc x, step acc x = acc ∨ ∃ k v, P (k, v) ∧ step acc x = aupd acc k v)
    (xs : List α) (init : List (κ × ρ)) (hinit : ∀ kv ∈ init, P kv) :
    ∀ kv ∈ xs.foldl step init, P kv := by
  induction xs generalizing init with
  | nil => exact hinit
  | cons x rest ih =>
    rw [List.foldl_cons]
    refine ih (step init x) ?_
    intro kv hkv
    rcases hstep init x with h | ⟨k, v, hP, h⟩
    · exact hinit kv (h ▸ hkv)
    · rcases mem_aupd init k v kv (h ▸ hkv) with h₁ | h₁
      · exact hinit kv h₁
      · exact h₁ ▸ hP

theorem map_key_of_inv {κ ρ : Type} (keyf : ρ → κ) (l : List (κ × ρ))
    (h : ∀ kv ∈ l, kv.1 = keyf kv.2) :
    (l.map Prod.snd).map keyf = l.map Prod.fst := by
  induction l with
  | nil => rfl
  | cons kv rest ih =>
    simp only [List.map_cons]
    rw [ih (fun kv' hkv' => h kv' (List.mem_cons_of_mem _ hkv')),
      (h kv (List.mem_cons_self _ _)).symm]

/-- Claim C4, amended (corrected).  The convert step performs no edge
deduplication at all — it emits exactly one output edge per input edge
record, so duplicate `(source, target, kind)` triples survive, and in
particular edges differing only in kind are both kept; deduplication
happens only in the per-source fetch combine, which keys edges by the
`"from-to"` string (the relationship kind, which raw edges do not even
carry, is no part of the key), so a combined fragment holds at most one
edge per such key. -/
theorem C4_edge_dedup (i : String) (gd : GraphData) (rgd : Option GraphData)
    (rg : GraphData) :
    (convertToGraphModel i gd rgd).edges.length =
      gd.edges.length +
        (match rgd with | Option.none => 0 | some r => r.edges.length) ∧
    (((combineGraphs gd rg).edges).map edgeKey).Nodup := by
  constructor
  · cases rgd with
    | none => simp [convertToGraphModel]
    | some r => simp [convertToGraphModel]
  · have hstep : ∀ (acc : List (String × Record)) (e : Record),
        revEdgeStep acc e = acc ∨ ∃ k v, revEdgeStep acc e = aupd acc k v := by
      intro acc e
      unfold revEdgeStep
      by_cases h : edgeKey e ≠ "" ∧ (alookup (edgeKey e) acc).isNone
      · exact Or.inr ⟨edgeKey e, e, by rw [if_pos h]⟩
      · exact Or.inl (by rw [if_neg h])
    have hstepf : ∀ (acc : List (String × Record)) (e : Record),
        fwdEdgeStep acc e = acc ∨ ∃ k v, fwdEdgeStep acc e = aupd acc k v := by
      intro acc e
      unfold fwdEdgeStep
      by_cases h : edgeKey e ≠ ""
      · exact Or.inr ⟨edgeKey e, e, by rw [if_pos h]⟩
      · exact Or.inl (by rw [if_neg h])
    have hnodup : ((combineAllEdges gd rg).map Prod.fst).Nodup := by
      rw [combineAllEdges]
      refine foldl_step_keys_nodup _ hstep _ _ ?_
      rw [fetchAllEdges]
      exact foldl_step_keys_nodup _ hstepf _ _ (by simp)
    have hinv : ∀ kv ∈ combineAllEdges gd rg, kv.1 = edgeKey kv.2 := by
      rw [combineAllEdges]
      refine foldl_step_mem (fun kv => kv.1 = edgeKey kv.2) _ ?_ _ _ ?_
      · intro acc e
        unfold revEdgeStep
        by_cases h : edgeKey e ≠ "" ∧ (alookup (edgeKey e) acc).isNone
        · exact Or.inr ⟨edgeKey e, e, rfl, by rw [if_pos h]⟩
        · exact Or.inl (by rw [if_neg h])
      · rw [fetchAllEdges]
        refine foldl_step_mem (fun kv => kv.1 = edgeKey kv.2) _ ?_ _ _ (by simp)
        intro acc e
        unfold fwdEdgeStep
        by_cases h : edgeKey e ≠ ""
        · exact Or.inr ⟨edgeKey e, e, rfl, by rw [if_pos h]⟩
        · exact Or.inl (by rw [if_neg h])
    have : ((combineGraphs gd rg).edges).map edgeKey =
        (combineAllEdges gd rg).map Prod.fst := by
      rw [combineGraphs]
      exact map_key_of_inv edgeKey _ hinv
    rw [this]
    exact hnodup

/-- Counterexample for C4 as stated: two identical raw edges survive the
convert step as two identical `(source, target, kind)` triples — the merged
edge set does not contain exactly one edge for that triple. -/
theorem C4_counterexample :
    (convertToGraphModel "odoo"
        { edges := [[("from", Value.int 1), ("to", Value.int 2)],
                    [("from", Value.int 1), ("to", Value.int 2)]] }
        Option.none).edges.map (fun e => (e.source, e.target, e.type)) =
      [("odoo_1", "odoo_2", "DEPENDS_ON"), ("odoo_1", "odoo_2", "DEPENDS_ON")] :=
  rfl

/-! ## Dedup lemmas for the convert step and the fetch combine -/

theorem dedupFirst_nil {α β : Type} (f : α → β) [DecidableEq β] (seen : List β) :
    dedupFirst f [] seen = [] := rfl

theorem dedupFirst_cons {α β : Type} (f : α → β) [DecidableEq β] (x : α) (xs : List α)
    (seen : List β) :
    dedupFirst f (x :: xs) seen =
      if f x ∈ seen then dedupFirst f xs seen
      else x :: dedupFirst f xs (seen ++ [f x]) := rfl

theorem dedupFirst_not_mem_seen {α β : Type} (f : α → β) [DecidableEq β]
    (xs : List α) (seen : List β) :
    ∀ b ∈ (dedupFirst f xs seen).map f, b ∉ seen := by
  induction xs generalizing seen with
  | nil => simp [dedupFirst_nil]
  | cons x rest ih =>
    rw [dedupFirst_cons]
    by_cases h : f x ∈ seen
    · rw [if_pos h]
      exact ih seen
    · rw [if_neg h]
      intro b hb
      rw [List.map_cons] at hb
      rcases List.mem_cons.mp hb with h₁ | h₁
      · exact h₁ ▸ h
      · intro hs
        exact ih (seen ++ [f x]) b h₁ (List.mem_append_left _ hs)

theorem dedupFirst_map_nodup {α β : Type} (f : α → β) [DecidableEq β]
    (xs : List α) (seen : List β) :
    ((dedupFirst f xs seen).map f).Nodup := by
  induction xs generalizing seen with
  | nil => simp [dedupFirst_nil]
  | cons x rest ih =>
    rw [dedupFirst_cons]
    by_cases h : f x ∈ seen
    · rw [if_pos h]
      exact ih seen
    · rw [if_neg h]
      rw [List.map_cons, List.nodup_cons]
      refine ⟨fun hmem => ?_, ih (seen ++ [f x])⟩
      exact dedupFirst_not_mem_seen f rest (seen ++ [f x]) (f x) hmem
        (List.mem_append_right _ (List.mem_singleton.mpr rfl))

theorem dedupFirst_append {α β : Type} (f : α → β) [DecidableEq β]
    (xs ys : List α) (seen : List β) :
    dedupFirst f (xs ++ ys) seen =
      dedupFirst f xs seen ++
        dedupFirst f ys (seen ++ (dedupFirst f xs seen).map f) := by
  induction xs generalizing seen with
  | nil => simp [dedupFirst_nil]
  | cons x rest ih =>
    rw [List.cons_append, dedupFirst_cons, dedupFirst_cons]
    by_cases h : f x ∈ seen
    · rw [if_pos h, if_pos h, ih]
    · rw [if_neg h, if_neg h, ih]
      simp [List.append_assoc]

theorem convertNodes_eq (i : String) (nds : List Record) (a : List GraphNode)
    (s : List String) :
    convertNodes i nds (a, s) =
      (a ++ (dedupFirst (canonicalId i) nds s).map (mkNode i),
       s ++ (dedupFirst (canonicalId i) nds s).map (canonicalId i)) := by
  induction nds generalizing a s with
  | nil => simp [convertNodes, dedupFirst_nil]
  | cons nd rest ih =>
    have hstep : convertNodes i (nd :: rest) (a, s) =
        convertNodes i rest
          (if canonicalId i nd ∈ s then (a, s)
           else (a ++ [mkNode i nd], s ++ [canonicalId i nd])) := rfl
    rw [hstep, dedupFirst_cons]
    by_cases hc : canonicalId i nd ∈ s
    · rw [if_pos hc, if_pos hc, ih]
    · rw [if_neg hc, if_neg hc, ih]
      simp [List.append_assoc]

theorem convert_nodes_eq_dedupFirst (i : String) (gd : GraphData)
    (rgd : Option GraphData) :
    (convertToGraphModel i gd rgd).nodes =
      (dedupFirst (canonicalId i)
        (gd.nodes ++ (match rgd with | Option.none => [] | some r => r.nodes))
        []).map (mkNode i) := by
  cases rgd with
  | none =>
    show (convertNodes i gd.nodes ([], [])).1 = _
    rw [convertNodes_eq]
    simp
  | some rg =>
    show (convertNodes i rg.nodes (convertNodes i gd.nodes ([], []))).1 = _
    rw [convertNodes_eq i gd.nodes [] []]
    simp only [List.nil_append]
    rw [convertNodes_eq, dedupFirst_append]
    simp

theorem alookup_foldl_fwdNodeStep (nds : List Record) (init : List (Value × Record))
    (k : Value) :
    alookup k (nds.foldl fwdNodeStep init) =
      match (nds.filter fun nd =>
          (alookup "id" nd).isSome && decide (dget nd "id" = k)).getLast? with
      | some nd => some nd
      | Option.none => alookup k init := by
  induction nds generalizing init with
  | nil => simp
  | cons nd rest ih =>
    rw [List.foldl_cons, ih]
    by_cases hg : (alookup "id" nd).isSome = true
    · by_cases hk : dget nd "id" = k
      · rw [List.filter_cons_of_pos (by simp [hg, hk])]
        have hbase : alookup k (fwdNodeStep init nd) = some nd := by
          unfold fwdNodeStep
          rw [if_pos hg, hk]
          exact alookup_aupd_self init k nd
        cases hf : rest.filter (fun nd =>
            (alookup "id" nd).isSome && decide (dget nd "id" = k)) with
        | nil => simp [hbase]
        | cons x xs =>
          obtain ⟨y, hy⟩ := Option.isSome_iff_exists.mp (getLast?_isSome_of_cons x xs)
          simp [List.getLast?_cons_cons, hy]
      · rw [List.filter_cons_of_neg (by simp [hk])]
        have hbase : alookup k (fwdNodeStep init nd) = alookup k init := by
          unfold fwdNodeStep
          rw [if_pos hg]
          exact alookup_aupd_ne init (dget nd "id") k nd (fun hh => hk hh.symm)
        rw [hbase]
    · rw [List.filter_cons_of_neg
        (by simp [Bool.not_eq_true] at hg; simp [hg])]
      have hbase : fwdNodeStep init nd = init := by
        unfold fwdNodeStep
        rw [if_neg hg]
      rw [hbase]

theorem alookup_foldl_revNodeStep_of_isSome (nds : List Record)
    (acc : List (Value × Record)) (k : Value)
    (h : (alookup k acc).isSome = true) :
    alookup k (nds.foldl revNodeStep acc) = alookup k acc := by
  induction nds generalizing acc with
  | nil => rfl
  | cons nd rest ih =>
    rw [List.foldl_cons]
    have hstep : alookup k (revNodeStep acc nd) = alookup k acc := by
      unfold revNodeStep
      by_cases hc : (dgetD nd "id" Value.none).truthy = true ∧
          (alookup (dgetD nd "id" Value.none) acc).isNone = true
      · rw [if_pos hc]
        refine alookup_aupd_ne acc _ k nd (fun hh => ?_)
        have h₂ := hc.2
        rw [← hh] at h₂
        rw [Option.isNone_iff_eq_none.mp h₂] at h
        simp at h
      · rw [if_neg hc]
    rw [ih _ (hstep ▸ h), hstep]

/-- Claim C5, amended (corrected).  Every merge keeps exactly one node per
distinct id, and the convert step keeps the first-seen record (later
duplicates are discarded entirely, never merged field-by-field): its node
list is exactly the first-seen dedup of the concatenated forward and
reverse records by canonical id.  In the per-source fetch combine, however,
nodes are deduplicated by raw id with the last-seen forward record winning
among forward duplicates, and a reverse record never replaces an entry that
is already present. -/
theorem C5_node_dedup (i : String) (gd : GraphData) (rgd : Option GraphData)
    (rg : GraphData) (key : Value)
    (hkey : (alookup key (fetchAllNodes gd)).isSome = true) :
    ((convertToGraphModel i gd rgd).nodes =
      (dedupFirst (canonicalId i)
        (gd.nodes ++ (match rgd with | Option.none => [] | some r => r.nodes))
        []).map (mkNode i)) ∧
    ((convertToGraphModel i gd rgd).nodes.map GraphNode.id).Nodup ∧
    (((combineGraphs gd rg).nodes).map (fun nd => dget nd "id")).Nodup ∧
    (∀ k : Value, alookup k (fetchAllNodes gd) =
      match (gd.nodes.filter fun nd =>
          (alookup "id" nd).isSome && decide (dget nd "id" = k)).getLast? with
      | some nd => some nd
      | Option.none => Option.none) ∧
    alookup key (combineAllNodes gd rg) = alookup key (fetchAllNodes gd) := by
  refine ⟨convert_nodes_eq_dedupFirst i gd rgd, ?_, ?_, ?_, ?_⟩
  · rw [convert_nodes_eq_dedupFirst, List.map_map]
    exact dedupFirst_map_nodup (canonicalId i) _ []
  · have hstepr : ∀ (acc : List (Value × Record)) (nd : Record),
        revNodeStep acc nd = acc ∨ ∃ k v, revNodeStep acc nd = aupd acc k v := by
      intro acc nd
      unfold revNodeStep
      by_cases h : (dgetD nd "id" Value.none).truthy = true ∧
          (alookup (dgetD nd "id" Value.none) acc).isNone = true
      · exact Or.inr ⟨dgetD nd "id" Value.none, nd, by rw [if_pos h]⟩
      · exact Or.inl (by rw [if_neg h])
    have hstepf : ∀ (acc : List (Value × Record)) (nd : Record),
        fwdNodeStep acc nd = acc ∨ ∃ k v, fwdNodeStep acc nd = aupd acc k v := by
      intro acc nd
      unfold fwdNodeStep
      by_cases h : (alookup "id" nd).isSome = true
      · exact Or.inr ⟨dget nd "id", nd, by rw [if_pos h]⟩
      · exact Or.inl (by rw [if_neg h])
    have hnodup : ((combineAllNodes gd rg).map Prod.fst).Nodup := by
      rw [combineAllNodes]
      refine foldl_step_keys_nodup _ hstepr _ _ ?_
      rw [fetchAllNodes]
      exact foldl_step_keys_nodup _ hstepf _ _ (by simp)
    have hinv : ∀ kv ∈ combineAllNodes gd rg, kv.1 = dget kv.2 "id" := by
      rw [combineAllNodes]
      refine foldl_step_mem (fun kv => kv.1 = dget kv.2 "id") _ ?_ _ _ ?_
      · intro acc nd
        unfold revNodeStep
        by_cases h : (dgetD nd "id" Value.none).truthy = true ∧
            (alookup (dgetD nd "id" Value.none) acc).isNone = true
        · exact Or.inr ⟨dgetD nd "id" Value.none, nd, rfl, by rw [if_pos h]⟩
        · exact Or.inl (by rw [if_neg h])
      · rw [fetchAllNodes]
        refine foldl_step_mem (fun kv => kv.1 = dget kv.2 "id") _ ?_ _ _ (by simp)
        intro acc nd
        unfold fwdNodeStep
        by_cases h : (alookup "id" nd).isSome = true
        · exact Or.inr ⟨dget nd "id", nd, rfl, by rw [if_pos h]⟩
        · exact Or.inl (by rw [if_neg h])
    have heq : ((combineGraphs gd rg).nodes).map (fun nd => dget nd "id") =
        (combineAllNodes gd rg).map Prod.fst := by
      rw [combineGraphs]
      exact map_key_of_inv (fun nd => dget nd "id") _ hinv
    rw [heq]
    exact hnodup
  · intro k
    rw [fetchAllNodes, alookup_foldl_fwdNodeStep]
    cases (gd.nodes.filter fun nd =>
        (alookup "id" nd).isSome && decide (dget nd "id" = k)).getLast? <;> rfl
  · rw [combineAllNodes]
    exact alookup_foldl_revNodeStep_of_isSome rg.nodes _ key hkey

/-- Counterexample for C5 as stated: two forward records share raw id `1`;
the fetch combine keeps the later record (`label B`), not the claimed
first-seen one (`label A`). -/
theorem C5_counterexample :
    (combineGraphs
        { nodes := [[("id", Value.int 1), ("label", Value.str "A")],
                    [("id", Value.int 1), ("label", Value.str "B")]] }
        {}).nodes =
      [[("id", Value.int 1), ("label", Value.str "B")]] ∧
    ([("id", Value.int 1), ("label", Value.str "B")] : Record) ≠
      [("id", Value.int 1), ("label", Value.str "A")] :=
  ⟨rfl, by decide⟩

/-- Witness for C5 at a concrete input: one forward record with raw id `1`,
no reverse fragment. -/
theorem C5_node_dedup_witness :
    ((convertToGraphModel "odoo" { nodes := [[("id", Value.int 1)]] }
        Option.none).nodes.map GraphNode.id).Nodup ∧
    alookup (Value.int 1)
        (combineAllNodes { nodes := [[("id", Value.int 1)]] } {}) =
      alookup (Value.int 1) (fetchAllNodes { nodes := [[("id", Value.int 1)]] }) :=
  ⟨(C5_node_dedup "odoo" { nodes := [[("id", Value.int 1)]] } Option.none {}
      (Value.int 1) rfl).2.1,
   (C5_node_dedup "odoo" { nodes := [[("id", Value.int 1)]] } Option.none {}
      (Value.int 1) rfl).2.2.2.2⟩

/-- Claim C9 (confirmed).  The fan-out returns exactly one result per
configured source, in order; the result at index `i` names source `i` (an
escaping exception is converted to an error response citing
`instances[i].name`, a returned response carries the name
`fetch_instance_data` stamped on it); an exception escaping a task becomes
an error-status result value; and the result at index `i` is a function of
source `i`'s own task outcome alone, so no other source's failure can
cancel, block, or remove it. -/
theorem C9_fanout_one_result_per_source (instances : List Instance)
    (run run' : Instance → Except String InstanceResponse)
    (hname : ∀ inst r, run inst = Except.ok r → r.instanceName = inst.name) :
    (fetchAll instances run).length = instances.length ∧
    (∀ i inst, instances.get? i = some inst →
      ∃ r, (fetchAll instances run).get? i = some r ∧
        r.instanceName = inst.name ∧
        (match run inst with
         | Except.error msg =>
             r.status = "error" ∧ r.error = some ("Unhandled exception: " ++ msg)
         | Except.ok q => r = q)) ∧
    (∀ i inst, instances.get? i = some inst → run' inst = run inst →
      (fetchAll instances run').get? i = (fetchAll instances run).get? i) := by
  have hget : ∀ (rn : Instance → Except String InstanceResponse) (i : Nat)
      (inst : Instance), instances.get? i = some inst →
      (fetchAll instances rn).get? i = some
        (match rn inst with
         | Except.error msg =>
             { instanceName := inst.name, status := "error",
               error := some ("Unhandled exception: " ++ msg) }
         | Except.ok r => r) := by
    intro rn i inst hi
    have hne : instances.isEmpty = false := by
      cases instances with
      | nil => simp at hi
      | cons _ _ => rfl
    unfold fetchAll
    rw [hne]
    simp only [Bool.false_eq_true, if_false]
    rw [List.get?_map, List.get?_enum, List.get?_map, hi]
    simp only [Option.map_some']
    cases hr : rn inst with
    | error msg =>
      have hi' : instances[i]? = some inst := by
        rw [← List.get?_eq_getElem?]
        exact hi
      simp [hi', hi]
    | ok q => simp
  refine ⟨?_, ?_, ?_⟩
  · cases instances with
    | nil => rfl
    | cons a l =>
      unfold fetchAll
      simp [List.enum_length]
  · intro i inst hi
    refine ⟨_, hget run i inst hi, ?_, ?_⟩
    · cases hr : run inst with
      | error msg => rfl
      | ok q => exact hname inst q hr
    · cases hr : run inst with
      | error msg => exact ⟨rfl, rfl⟩
      | ok q => rfl
  · intro i inst hi hrr
    rw [hget run' i inst hi, hget run i inst hi, hrr]

/-- Witness for C9 at two concrete sources where the second's task raises:
the fan-out still yields exactly two results. -/
theorem C9_fanout_witness :
    (fetchAll [{ name := "a" }, { name := "b" }]
        (fun inst => if inst.name = "b" then Except.error "boom"
                     else Except.ok { instanceName := inst.name })).length = 2 := by
  have h := (C9_fanout_one_result_per_source [{ name := "a" }, { name := "b" }]
    (fun inst => if inst.name = "b" then Except.error "boom"
                 else Except.ok { instanceName := inst.name })
    (fun inst => if inst.name = "b" then Except.error "boom"
                 else Except.ok { instanceName := inst.name })
    (by
      intro inst r h
      dsimp only at h
      by_cases hb : inst.name = "b"
      · rw [if_pos hb] at h
        exact Except.noConfusion h
      · rw [if_neg hb] at h
        injection h with h₂
        rw [← h₂])).1
  simpa using h

/-! ## Replay lemmas for upsert idempotence (C7)

What a sequence of `SET m += rec, m.last_updated = timestamp()` writes
leaves at each key is the last write (`wlast`); replaying the same sequence
on the resulting record changes nothing outside `last_updated`. -/

theorem wlast_cons (k : String) (rec : Record) (rs : List Record) :
    wlast k (rec :: rs) =
      match wlast k rs with
      | some v => some v
      | Option.none => lastLookup k rec := rfl

theorem alookup_entryFold (t : Int) (start : Record) (rs : List Record) (k : String)
    (hk : k ≠ "last_updated") :
    alookup k (entryFold t start rs) =
      match wlast k rs with
      | some v => some v
      | Option.none => alookup k start := by
  induction rs generalizing start with
  | nil => rfl
  | cons rec rs ih =>
    have hstep : entryFold t start (rec :: rs) =
        entryFold t (aupd (dictMerge start rec) "last_updated" (Value.int t)) rs := rfl
    rw [hstep, ih, wlast_cons]
    cases wlast k rs with
    | some v => rfl
    | none =>
      rw [alookup_aupd_ne _ _ _ _ hk, alookup_dictMerge]

theorem entryFold_replay (t₁ t₂ : Int) (rs : List Record) (start : Record) :
    RecordEqExceptLU (entryFold t₂ (entryFold t₁ start rs) rs)
      (entryFold t₁ start rs) := by
  intro k hk
  rw [alookup_entryFold _ _ _ _ hk]
  cases hw : wlast k rs with
  | none => rfl
  | some v =>
    rw [alookup_entryFold _ _ _ _ hk, hw]

theorem OptRecEqExceptLU.refl (o : Option Record) : OptRecEqExceptLU o o := by
  cases o with
  | none => trivial
  | some p => exact fun k _ => rfl

/-! ### The node phase -/

theorem upsertNode_rels (t : Int) (s : Store) (rec : Record) :
    (upsertNode t s rec).rels = s.rels := by
  unfold upsertNode
  dsimp only
  cases alookup (dget rec "id") s.nodes <;> rfl

theorem alookup_upsertNode (t : Int) (s : Store) (rec : Record) (idv : Value) :
    alookup idv (upsertNode t s rec).nodes =
      if dget rec "id" = idv then
        some (aupd (dictMerge (startProps (alookup idv s.nodes) idv) rec)
          "last_updated" (Value.int t))
      else alookup idv s.nodes := by
  unfold upsertNode
  dsimp only
  cases hlk : alookup (dget rec "id") s.nodes with
  | some props =>
    by_cases hk : dget rec "id" = idv
    · subst hk
      rw [if_pos rfl, hlk]
      exact alookup_aupd_self s.nodes (dget rec "id") _
    · rw [if_neg hk]
      exact alookup_aupd_ne s.nodes _ idv _ (fun hh => hk hh.symm)
  | none =>
    by_cases hk : dget rec "id" = idv
    · subst hk
      rw [if_pos rfl, hlk, alookup_append, hlk]
      simp only [alookup_cons, if_pos rfl]
      rfl
    · rw [if_neg hk, alookup_append]
      cases hlk₂ : alookup idv s.nodes with
      | some v => rfl
      | none => simp [alookup_cons, hk]

theorem keys_upsertNode (t : Int) (s : Store) (rec : Record) :
    (upsertNode t s rec).nodes.map Prod.fst =
      if (alookup (dget rec "id") s.nodes).isSome = true then s.nodes.map Prod.fst
      else s.nodes.map Prod.fst ++ [dget rec "id"] := by
  unfold upsertNode
  dsimp only
  cases hlk : alookup (dget rec "id") s.nodes with
  | some props =>
    show (aupd s.nodes (dget rec "id")
        (aupd (dictMerge props rec) "last_updated" (Value.int t))).map Prod.fst = _
    rw [if_pos (show (some props).isSome = true from rfl), keys_aupd, hlk]
  | none =>
    show (s.nodes ++ [(dget rec "id",
        aupd (dictMerge [("id", dget rec "id")] rec)
          "last_updated" (Value.int t))]).map Prod.fst = _
    rw [if_neg (by simp), List.map_append]
    rfl

theorem alookup_foldl_upsertNode (t : Int) (recs : List Record) (s : Store) (idv : Value) :
    alookup idv ((recs.foldl (upsertNode t) s).nodes) =
      if relevantRecs idv recs = [] then alookup idv s.nodes
      else some (entryFold t (startProps (alookup idv s.nodes) idv)
        (relevantRecs idv recs)) := by
  induction recs generalizing s with
  | nil => simp [relevantRecs]
  | cons rec recs ih =>
    rw [List.foldl_cons, ih]
    by_cases hk : dget rec "id" = idv
    · have hrel : relevantRecs idv (rec :: recs) = rec :: relevantRecs idv recs := by
        unfold relevantRecs
        rw [List.filter_cons_of_pos (by simp [hk])]
      have hup : alookup idv (upsertNode t s rec).nodes =
          some (aupd (dictMerge (startProps (alookup idv s.nodes) idv) rec)
            "last_updated" (Value.int t)) := by
        rw [alookup_upsertNode, if_pos hk]
      rw [hrel, hup, if_neg (List.cons_ne_nil _ _)]
      by_cases hnil : relevantRecs idv recs = []
      · rw [if_pos hnil, hnil]
        rfl
      · rw [if_neg hnil]
        rfl
    · have hrel : relevantRecs idv (rec :: recs) = relevantRecs idv recs := by
        unfold relevantRecs
        rw [List.filter_cons_of_neg (by simp [hk])]
      have hup : alookup idv (upsertNode t s rec).nodes = alookup idv s.nodes := by
        rw [alookup_upsertNode, if_neg hk]
      rw [hrel, hup]

theorem foldl_upsertNode_rels (t : Int) (recs : List Record) (s : Store) :
    (recs.foldl (upsertNode t) s).rels = s.rels := by
  induction recs generalizing s with
  | nil => rfl
  | cons rec recs ih =>
    rw [List.foldl_cons, ih, upsertNode_rels]

theorem keys_foldl_upsertNode_of_present (t : Int) (recs : List Record) (s : Store)
    (h : ∀ rec ∈ recs, (alookup (dget rec "id") s.nodes).isSome = true) :
    (recs.foldl (upsertNode t) s).nodes.map Prod.fst = s.nodes.map Prod.fst := by
  induction recs generalizing s with
  | nil => rfl
  | cons rec recs ih =>
    rw [List.foldl_cons]
    have hkeys : (upsertNode t s rec).nodes.map Prod.fst = s.nodes.map Prod.fst := by
      rw [keys_upsertNode, if_pos (h rec (List.mem_cons_self _ _))]
    have hnext : ∀ rec' ∈ recs,
        (alookup (dget rec' "id") (upsertNode t s rec).nodes).isSome = true := by
      intro rec' hrec'
      rw [alookup_upsertNode]
      by_cases hk : dget rec "id" = dget rec' "id"
      · rw [if_pos hk]
        rfl
      · rw [if_neg hk]
        exact h rec' (List.mem_cons_of_mem _ hrec')
    rw [ih _ hnext, hkeys]

theorem alookup_foldl_upsertNode_isSome_of_mem (t : Int) (recs : List Record)
    (s : Store) (rec : Record) (h : rec ∈ recs) :
    (alookup (dget rec "id") ((recs.foldl (upsertNode t) s).nodes)).isSome = true := by
  rw [alookup_foldl_upsertNode]
  have hne : relevantRecs (dget rec "id") recs ≠ [] := by
    intro hc
    have hmem : rec ∈ relevantRecs (dget rec "id") recs :=
      List.mem_filter.mpr ⟨h, by simp⟩
    rw [hc] at hmem
    simp at hmem
  rw [if_neg hne]
  rfl

/-! ### The edge phase -/

theorem ingest_eq (t : Int) (g : Graph) (s : Store) :
    ingest t g s =
      (edgePlan g).foldl (fun st lr => upsertRel t lr.1 st lr.2)
        ((nodesData g).foldl (upsertNode t) s) := by
  have aux : ∀ (gps : List (Value × List Record)) (acc : List (String × Record))
      (u : Store),
      gps.foldl (fun st kg =>
        match relLabelFor kg.1 with
        | Option.none => st
        | some label => kg.2.foldl (upsertRel t label) st)
        (acc.foldl (fun st lr => upsertRel t lr.1 st lr.2) u) =
      (gps.foldl (fun a kg =>
        match relLabelFor kg.1 with
        | Option.none => a
        | some label => a ++ kg.2.map (fun r => (label, r))) acc).foldl
        (fun st lr => upsertRel t lr.1 st lr.2) u := by
    intro gps
    induction gps with
    | nil => intro acc u; rfl
    | cons kg gps ih =>
      intro acc u
      rw [List.foldl_cons, List.foldl_cons]
      cases hl : relLabelFor kg.1 with
      | none =>
        simp only [hl]
        exact ih acc u
      | some label =>
        simp only [hl]
        have hflat : kg.2.foldl (upsertRel t label)
            (acc.foldl (fun st lr => upsertRel t lr.1 st lr.2) u) =
            (acc ++ kg.2.map (fun r => (label, r))).foldl
              (fun st lr => upsertRel t lr.1 st lr.2) u := by
          rw [List.foldl_append, List.foldl_map]
        rw [hflat]
        exact ih _ u
  have h := aux (edgesByType (edgesData g)) [] ((nodesData g).foldl (upsertNode t) s)
  simpa [ingest, edgePlan] using h

theorem upsertRel_nodes (t : Int) (label : String) (s : Store) (rec : Record) :
    (upsertRel t label s rec).nodes = s.nodes := by
  unfold upsertRel
  dsimp only
  by_cases hc : ((alookup (dget rec "source") s.nodes).isSome &&
      (alookup (dget rec "target") s.nodes).isSome) = true
  · rw [if_pos hc]
    cases alookup (dget rec "source", dget rec "target", label) s.rels <;> rfl
  · rw [if_neg hc]

theorem alookup_upsertRel (t : Int) (label : String) (s : Store) (rec : Record)
    (rk : Value × Value × String) :
    alookup rk (upsertRel t label s rec).rels =
      if ((alookup (dget rec "source") s.nodes).isSome &&
          (alookup (dget rec "target") s.nodes).isSome) = true then
        (if (dget rec "source", dget rec "target", label) = rk then
          some (aupd (dictMerge (relStart (alookup rk s.rels)) rec)
            "last_updated" (Value.int t))
        else alookup rk s.rels)
      else alookup rk s.rels := by
  unfold upsertRel
  dsimp only
  by_cases hc : ((alookup (dget rec "source") s.nodes).isSome &&
      (alookup (dget rec "target") s.nodes).isSome) = true
  · rw [if_pos hc, if_pos hc]
    cases hlk : alookup (dget rec "source", dget rec "target", label) s.rels with
    | some props =>
      by_cases hk : (dget rec "source", dget rec "target", label) = rk
      · rw [if_pos hk, ← hk, hlk]
        exact alookup_aupd_self s.rels _ _
      · rw [if_neg hk]
        exact alookup_aupd_ne s.rels _ rk _ (fun hh => hk hh.symm)
    | none =>
      by_cases hk : (dget rec "source", dget rec "target", label) = rk
      · rw [if_pos hk, ← hk, hlk, alookup_append, hlk]
        simp only [alookup_cons, if_pos rfl]
        rfl
      · rw [if_neg hk, alookup_append]
        cases hlk₂ : alookup rk s.rels with
        | some v => rfl
        | none => simp [alookup_cons, hk]
  · rw [if_neg hc, if_neg hc]

theorem keys_upsertRel (t : Int) (label : String) (s : Store) (rec : Record) :
    (upsertRel t label s rec).rels.map Prod.fst =
      if ((alookup (dget rec "source") s.nodes).isSome &&
          (alookup (dget rec "target") s.nodes).isSome) = true then
        (if (alookup (dget rec "source", dget rec "target", label) s.rels).isSome = true
         then s.rels.map Prod.fst
         else s.rels.map Prod.fst ++ [(dget rec "source", dget rec "target", label)])
      else s.rels.map Prod.fst := by
  unfold upsertRel
  dsimp only
  by_cases hc : ((alookup (dget rec "source") s.nodes).isSome &&
      (alookup (dget rec "target") s.nodes).isSome) = true
  · rw [if_pos hc, if_pos hc]
    cases hlk : alookup (dget rec "source", dget rec "target", label) s.rels with
    | some props =>
      show (aupd s.rels _ _).map Prod.fst = _
      rw [if_pos (show (some props).isSome = true from rfl), keys_aupd, hlk]
    | none =>
      show (s.rels ++ [((dget rec "source", dget rec "target", label), _)]).map
          Prod.fst = _
      rw [if_neg (by simp), List.map_append]
      rfl
  · rw [if_neg hc, if_neg hc]

theorem foldRels_nodes (t : Int) (plan : List (String × Record)) (s : Store) :
    (plan.foldl (fun st lr => upsertRel t lr.1 st lr.2) s).nodes = s.nodes := by
  induction plan generalizing s with
  | nil => rfl
  | cons lr plan ih =>
    rw [List.foldl_cons, ih, upsertRel_nodes]

theorem alookup_foldRels (t : Int) (plan : List (String × Record)) (s : Store)
    (rk : Value × Value × String) :
    alookup rk ((plan.foldl (fun st lr => upsertRel t lr.1 st lr.2) s).rels) =
      if relevantRels s.nodes rk plan = [] then alookup rk s.rels
      else some (entryFold t (relStart (alookup rk s.rels))
        (relevantRels s.nodes rk plan)) := by
  induction plan generalizing s with
  | nil => simp [relevantRels]
  | cons lr plan ih =>
    obtain ⟨label, rec⟩ := lr
    rw [List.foldl_cons, ih, upsertRel_nodes]
    by_cases hcond : (relCond s.nodes (label, rec) &&
        decide (relKey (label, rec) = rk)) = true
    · obtain ⟨hc₁, hc₂⟩ := Bool.and_eq_true_iff.mp hcond
      have hc₁' : ((alookup (dget rec "source") s.nodes).isSome &&
          (alookup (dget rec "target") s.nodes).isSome) = true := hc₁
      have hkey : (dget rec "source", dget rec "target", label) = rk :=
        of_decide_eq_true hc₂
      have hrel : relevantRels s.nodes rk ((label, rec) :: plan) =
          rec :: relevantRels s.nodes rk plan := by
        unfold relevantRels
        rw [List.filter_cons, if_pos hcond, List.map_cons]
      have hup : alookup rk (upsertRel t label s rec).rels =
          some (aupd (dictMerge (relStart (alookup rk s.rels)) rec)
            "last_updated" (Value.int t)) := by
        rw [alookup_upsertRel, if_pos hc₁', if_pos hkey]
      rw [hrel, hup, if_neg (List.cons_ne_nil _ _)]
      by_cases hnil : relevantRels s.nodes rk plan = []
      · rw [if_pos hnil, hnil]
        rfl
      · rw [if_neg hnil]
        rfl
    · have hrel : relevantRels s.nodes rk ((label, rec) :: plan) =
          relevantRels s.nodes rk plan := by
        unfold relevantRels
        rw [List.filter_cons, if_neg hcond]
      have hup : alookup rk (upsertRel t label s rec).rels = alookup rk s.rels := by
        rw [alookup_upsertRel]
        by_cases hc₁ : ((alookup (dget rec "source") s.nodes).isSome &&
            (alookup (dget rec "target") s.nodes).isSome) = true
        · rw [if_pos hc₁]
          have hk : ¬ (dget rec "source", dget rec "target", label) = rk := by
            intro he
            exact hcond (Bool.and_eq_true_iff.mpr ⟨hc₁, decide_eq_true he⟩)
          rw [if_neg hk]
        · rw [if_neg hc₁]
      rw [hrel, hup]

theorem keys_foldRels_of_present (t : Int) (plan : List (String × Record)) (s : Store)
    (h : ∀ lr ∈ plan, relCond s.nodes lr = true →
      (alookup (relKey lr) s.rels).isSome = true) :
    ((plan.foldl (fun st lr => upsertRel t lr.1 st lr.2) s).rels).map Prod.fst =
      s.rels.map Prod.fst := by
  induction plan generalizing s with
  | nil => rfl
  | cons lr plan ih =>
    obtain ⟨label, rec⟩ := lr
    rw [List.foldl_cons]
    have hkeys : (upsertRel t label s rec).rels.map Prod.fst =
        s.rels.map Prod.fst := by
      rw [keys_upsertRel]
      by_cases hc : ((alookup (dget rec "source") s.nodes).isSome &&
          (alookup (dget rec "target") s.nodes).isSome) = true
      · have hp : (alookup (dget rec "source", dget rec "target", label)
            s.rels).isSome = true := h (label, rec) (List.mem_cons_self _ _) hc
        rw [if_pos hc, if_pos hp]
      · rw [if_neg hc]
    have hnext : ∀ lr' ∈ plan,
        relCond (upsertRel t label s rec).nodes lr' = true →
        (alookup (relKey lr') (upsertRel t label s rec).rels).isSome = true := by
      intro lr' hlr' hcond'
      rw [upsertRel_nodes] at hcond'
      rw [alookup_upsertRel]
      by_cases hc : ((alookup (dget rec "source") s.nodes).isSome &&
          (alookup (dget rec "target") s.nodes).isSome) = true
      · rw [if_pos hc]
        by_cases hk : (dget rec "source", dget rec "target", label) = relKey lr'
        · rw [if_pos hk]
          rfl
        · rw [if_neg hk]
          exact h lr' (List.mem_cons_of_mem _ hlr') hcond'
      · rw [if_neg hc]
        exact h lr' (List.mem_cons_of_mem _ hlr') hcond'
    rw [ih _ hnext, hkeys]

/-! ### Transfer lemmas between the two passes -/

theorem alookup_isSome_congr_of_keys_eq {κ ν : Type} [DecidableEq κ]
    (d₁ d₂ : List (κ × ν)) (h : d₁.map Prod.fst = d₂.map Prod.fst) (k : κ) :
    (alookup k d₁).isSome = (alookup k d₂).isSome := by
  cases h₁ : (alookup k d₁).isSome <;> cases h₂ : (alookup k d₂).isSome <;> try rfl
  · exfalso
    have hm := (alookup_isSome_iff_mem_keys d₂ k).mp h₂
    rw [← h] at hm
    have := (alookup_isSome_iff_mem_keys d₁ k).mpr hm
    rw [h₁] at this
    exact Bool.false_ne_true this
  · exfalso
    have hm := (alookup_isSome_iff_mem_keys d₁ k).mp h₁
    rw [h] at hm
    have := (alookup_isSome_iff_mem_keys d₂ k).mpr hm
    rw [h₂] at this
    exact Bool.false_ne_true this

theorem relCond_congr (N₁ N₂ : List (Value × Record))
    (h : ∀ v, (alookup v N₁).isSome = (alookup v N₂).isSome)
    (lr : String × Record) : relCond N₁ lr = relCond N₂ lr := by
  unfold relCond
  rw [h, h]

theorem relevantRels_congr (N₁ N₂ : List (Value × Record))
    (h : ∀ v, (alookup v N₁).isSome = (alookup v N₂).isSome)
    (rk : Value × Value × String) (plan : List (String × Record)) :
    relevantRels N₁ rk plan = relevantRels N₂ rk plan := by
  unfold relevantRels
  congr 1
  apply List.filter_congr
  intro lr _
  rw [relCond_congr N₁ N₂ h lr]

/-- Claim C7 (confirmed).  Loading the same merged graph twice is
idempotent: after the second load the store holds exactly the same node
ids and the same relationship keys, in the same order (hence no additional
nodes and no additional relationships — node upsert finds-or-creates by id,
edge upsert by (source, target, label)), and every stored record agrees
with its first-load state at every key except the `last_updated`
timestamp. -/
theorem C7_load_idempotent (g : Graph) (s : Store) (t₁ t₂ : Int) :
    (ingest t₂ g (ingest t₁ g s)).nodes.length = (ingest t₁ g s).nodes.length ∧
    (ingest t₂ g (ingest t₁ g s)).rels.length = (ingest t₁ g s).rels.length ∧
    StoreEqExceptLU (ingest t₂ g (ingest t₁ g s)) (ingest t₁ g s) := by
  -- Pass 1: node phase `np₁` then edge phase; similarly pass 2 from `s₁`.
  have hs₁nodes : (ingest t₁ g s).nodes =
      ((nodesData g).foldl (upsertNode t₁) s).nodes := by
    rw [ingest_eq, foldRels_nodes]
  have hs₂nodes : (ingest t₂ g (ingest t₁ g s)).nodes =
      ((nodesData g).foldl (upsertNode t₂) (ingest t₁ g s)).nodes := by
    rw [ingest_eq t₂, foldRels_nodes]
  have hs₁rels₀ : ((nodesData g).foldl (upsertNode t₁) s).rels = s.rels :=
    foldl_upsertNode_rels t₁ (nodesData g) s
  have hs₂rels₀ : ((nodesData g).foldl (upsertNode t₂) (ingest t₁ g s)).rels =
      (ingest t₁ g s).rels :=
    foldl_upsertNode_rels t₂ (nodesData g) (ingest t₁ g s)
  -- every id written by the batch is present after pass 1
  have hpresent : ∀ rec ∈ nodesData g,
      (alookup (dget rec "id") (ingest t₁ g s).nodes).isSome = true := by
    intro rec hrec
    rw [hs₁nodes]
    exact alookup_foldl_upsertNode_isSome_of_mem t₁ (nodesData g) s rec hrec
  -- node keys are unchanged by pass 2
  have hkeys : (ingest t₂ g (ingest t₁ g s)).nodes.map Prod.fst =
      (ingest t₁ g s).nodes.map Prod.fst := by
    rw [hs₂nodes]
    exact keys_foldl_upsertNode_of_present t₂ (nodesData g) (ingest t₁ g s) hpresent
  -- node-phase stores of the two passes agree on key presence
  have hnp_keys : ((nodesData g).foldl (upsertNode t₂) (ingest t₁ g s)).nodes.map
      Prod.fst = ((nodesData g).foldl (upsertNode t₁) s).nodes.map Prod.fst := by
    rw [keys_foldl_upsertNode_of_present t₂ (nodesData g) (ingest t₁ g s) hpresent,
      hs₁nodes]
  have hnp_isSome : ∀ v : Value,
      (alookup v ((nodesData g).foldl (upsertNode t₂) (ingest t₁ g s)).nodes).isSome =
      (alookup v ((nodesData g).foldl (upsertNode t₁) s).nodes).isSome :=
    alookup_isSome_congr_of_keys_eq _ _ hnp_keys
  -- node lookups: pass 2 replays each entry's writes
  have hnodelook : ∀ idv : Value,
      OptRecEqExceptLU (alookup idv (ingest t₂ g (ingest t₁ g s)).nodes)
        (alookup idv (ingest t₁ g s).nodes) := by
    intro idv
    rw [hs₂nodes, alookup_foldl_upsertNode]
    by_cases hnil : relevantRecs idv (nodesData g) = []
    · rw [if_pos hnil]
      exact OptRecEqExceptLU.refl _
    · rw [if_neg hnil]
      have h₁ : alookup idv (ingest t₁ g s).nodes =
          some (entryFold t₁ (startProps (alookup idv s.nodes) idv)
            (relevantRecs idv (nodesData g))) := by
        rw [hs₁nodes, alookup_foldl_upsertNode, if_neg hnil]
      rw [h₁]
      show RecordEqExceptLU _ _
      have : startProps (some (entryFold t₁ (startProps (alookup idv s.nodes) idv)
          (relevantRecs idv (nodesData g)))) idv =
          entryFold t₁ (startProps (alookup idv s.nodes) idv)
            (relevantRecs idv (nodesData g)) := rfl
      rw [this]
      exact entryFold_replay t₁ t₂ _ _
  -- the relationship phase of both passes sees the same relevant plans
  have hrelv : ∀ rk : Value × Value × String,
      relevantRels ((nodesData g).foldl (upsertNode t₂) (ingest t₁ g s)).nodes rk
        (edgePlan g) =
      relevantRels ((nodesData g).foldl (upsertNode t₁) s).nodes rk (edgePlan g) :=
    fun rk => relevantRels_congr _ _ hnp_isSome rk (edgePlan g)
  -- pass-1 relationship lookups in characterized form
  have hs₁look : ∀ rk : Value × Value × String,
      alookup rk (ingest t₁ g s).rels =
        if relevantRels ((nodesData g).foldl (upsertNode t₁) s).nodes rk
            (edgePlan g) = [] then alookup rk s.rels
        else some (entryFold t₁ (relStart (alookup rk s.rels))
          (relevantRels ((nodesData g).foldl (upsertNode t₁) s).nodes rk
            (edgePlan g))) := by
    intro rk
    rw [ingest_eq, alookup_foldRels, hs₁rels₀]
  -- relationship lookups after pass 2
  have hrellook : ∀ rk : Value × Value × String,
      OptRecEqExceptLU (alookup rk (ingest t₂ g (ingest t₁ g s)).rels)
        (alookup rk (ingest t₁ g s).rels) := by
    intro rk
    rw [ingest_eq t₂, alookup_foldRels, hs₂rels₀, hrelv rk]
    by_cases hnil : relevantRels ((nodesData g).foldl (upsertNode t₁) s).nodes rk
        (edgePlan g) = []
    · rw [if_pos hnil]
      exact OptRecEqExceptLU.refl _
    · rw [if_neg hnil, hs₁look rk, if_neg hnil]
      show RecordEqExceptLU _ _
      have : relStart (some (entryFold t₁ (relStart (alookup rk s.rels))
          (relevantRels ((nodesData g).foldl (upsertNode t₁) s).nodes rk
            (edgePlan g)))) =
          entryFold t₁ (relStart (alookup rk s.rels))
            (relevantRels ((nodesData g).foldl (upsertNode t₁) s).nodes rk
              (edgePlan g)) := rfl
      rw [this]
      exact entryFold_replay t₁ t₂ _ _
  -- relationship keys are unchanged by pass 2
  have hrelkeys : (ingest t₂ g (ingest t₁ g s)).rels.map Prod.fst =
      (ingest t₁ g s).rels.map Prod.fst := by
    rw [ingest_eq t₂]
    have h := keys_foldRels_of_present t₂ (edgePlan g)
      ((nodesData g).foldl (upsertNode t₂) (ingest t₁ g s)) ?_
    · rw [h, hs₂rels₀]
    · intro lr hlr hcond
      rw [hs₂rels₀, hs₁look]
      have hcond₁ : relCond ((nodesData g).foldl (upsertNode t₁) s).nodes lr = true := by
        rw [← relCond_congr _ _ hnp_isSome lr]
        exact hcond
      have hmem : lr.2 ∈ relevantRels
          ((nodesData g).foldl (upsertNode t₁) s).nodes (relKey lr) (edgePlan g) := by
        unfold relevantRels
        exact List.mem_map_of_mem Prod.snd
          (List.mem_filter.mpr ⟨hlr, by simp [hcond₁]⟩)
      have hne : relevantRels ((nodesData g).foldl (upsertNode t₁) s).nodes
          (relKey lr) (edgePlan g) ≠ [] := by
        intro hc
        rw [hc] at hmem
        simp at hmem
      rw [if_neg hne]
      rfl
  refine ⟨?_, ?_, hkeys, hrelkeys, hnodelook, hrellook⟩
  · have := congrArg List.length hkeys
    simpa using this
  · have := congrArg List.length hrelkeys
    simpa using this

end GraphSync
